import Mathlib

set_option maxRecDepth 16384

/-!
Verification development for the ifc2lbd repository.

Part 1 embeds the streaming Turtle serializer of src/lbd/TTL_writer.py:
the value formatting helpers, the SELECT-type handler, the collection
handler, the attribute processor and the main writer function
string_stream_refactored.  Python machine integers are modelled as
Nat/Int, Python dict values of the stream2 record format are modelled by
the inductive type Value, fallible code paths (the attribute processor
falling off the end of a branch and returning None, which the caller then
fails to unpack) are modelled with Option.  Float attribute values and
their formatting are not exercised by any statement below and are left
out of the value universe.  File output is modelled as the accumulated
output string; the generation timestamp written into the header is taken
as an explicit parameter.

Part 2 (further down) embeds the geometry dependency resolver and the
GUID-indexed subgraph lookup of src/ifc2lbd/geometry.py.
-/

/-- Digit characters of a number, most significant first; the fuel
argument makes the recursion structural (any fuel at least n suffices,
and the callers pass n itself). -/
def natDigsGo : Nat → Nat → List Char
  | 0, _ => []
  | fuel+1, n => if n = 0 then [] else natDigsGo fuel (n / 10) ++ [Nat.digitChar (n % 10)]

/-- Decimal rendering of a natural number, modelling Python str(int) for
non-negative integers. -/
def natRepr (n : Nat) : String :=
  if n = 0 then ("0") else String.mk (natDigsGo n n)

/-- Decimal rendering of an integer, modelling Python str(int). -/
def intRepr (n : Int) : String :=
  if n < 0 then ("-") ++ natRepr n.natAbs else natRepr n.natAbs

/-- Single-quote character as a string (used by the Python repr model). -/
def sqc : String := String.mk [Char.ofNat 39]

/-- Attribute values of the stream2 record format consumed by
TTL_writer.py.  A Python dict of shape (ref: id) is Value.ref, a dict of
shape (type: name, value: v) is Value.typed, the empty dict (a concrete
dict of neither recognized shape) is Value.emptyDict, Python list/tuple
is Value.coll, and str/bool/int primitives keep their names.  Python
floats are not modelled (no statement below depends on them). -/
inductive Value where
  | str (s : String)
  | bool (b : Bool)
  | int (n : Int)
  | ref (r : Nat)
  | typed (ty : String) (v : Value)
  | emptyDict
  | coll (items : List Value)

/-- Python repr of a stream2 value, as produced inside str() of a
container.  Models the common case: strings are rendered between single
quotes (quote selection and escaping for strings that themselves contain
quotes or backslashes is not modelled); tuples are rendered with list
brackets. -/
def pyRepr : Value → String
  | .str s => sqc ++ s ++ sqc
  | .bool b => if b then ("True") else ("False")
  | .int n => intRepr n
  | .ref r => "\x7b" ++ sqc ++ "ref" ++ sqc ++ ": " ++ natRepr r ++ "\x7d"
  | .typed ty v =>
      "\x7b" ++ sqc ++ "type" ++ sqc ++ ": " ++ sqc ++ ty ++ sqc ++ ", " ++
        sqc ++ "value" ++ sqc ++ ": " ++ pyRepr v ++ "\x7d"
  | .emptyDict => "\x7b\x7d"
  | .coll items => "[" ++ String.intercalate (", ") (pyReprList items) ++ "]"
where pyReprList : List Value → List String
  | [] => []
  | v :: vs => pyRepr v :: pyReprList vs

/-- Embeds format_literal of TTL_writer.py.  The dispatch on the Python
runtime type becomes a match on the Value constructors; the final else
branch (quote the str() of the value) is reached exactly by the dict and
list shaped values. -/
def format_literal : Value → String
  | .str s => "\"" ++ s ++ "\""
  | .bool b => "\"" ++ (if b then ("true") else ("false")) ++ "\"^^xsd:boolean"
  | .int n => "\"" ++ intRepr n ++ "\"^^xsd:integer"
  | v => "\"" ++ pyRepr v ++ "\""

mutual

/-- Embeds the per-item formatting of format_collection_items: a dict
holding a ref key renders as inst:ref_(id), a nested list/tuple recurses,
anything else goes through format_literal. -/
def fciItem : Value → String
  | .ref r => "inst:ref_" ++ natRepr r
  | .coll xs =>
      match xs with
      | [] => "()"
      | _ => "( " ++ String.intercalate (" ") (fciList xs) ++ " )"
  | v => format_literal v

/-- Formats every item of a collection in order (the loop body of
format_collection_items). -/
def fciList : List Value → List String
  | [] => []
  | x :: rest => fciItem x :: fciList rest

end

/-- Embeds format_collection_items of TTL_writer.py. -/
def format_collection_items (items : List Value) : String :=
  match items with
  | [] => "()"
  | _ => "( " ++ String.intercalate (" ") (fciList items) ++ " )"

/-- Python str.startswith, modelled as a prefix test on the character
sequences. -/
def pyStartsWith (s pre : String) : Bool := pre.data.isPrefixOf s.data

/-- State of a SelectTypeHandler: the per-entity counter and the
accumulated typed-entity triples. -/
structure SelectState where
  counter : Nat
  typed_triples : List String
deriving DecidableEq

/-- The ifc_prefix constant used by string_stream_refactored. -/
def ifcp : String := "ifc:"

/-- Synthetic id allocated for the n-th SELECT value of an entity,
as built inside SelectTypeHandler.process_select_value. -/
def mkTypedId (entity_id : Nat) (n : Nat) : String :=
  "inst:ref_" ++ natRepr entity_id ++ "_t" ++ natRepr n

/-- Embeds SelectTypeHandler.process_select_value: bump the counter,
allocate the synthetic id, format the inner value (collections through
format_collection_items, everything else through format_literal), store
the auxiliary typed-entity triple, return the synthetic id. -/
def process_select_value (entity_id : Nat) (st : SelectState) (ty : String)
    (v : Value) : String × SelectState :=
  let c := st.counter + 1
  let typed_id := mkTypedId entity_id c
  let val_str :=
    match v with
    | .coll xs => format_collection_items xs
    | w => format_literal w
  (typed_id,
   ⟨c, st.typed_triples ++ [typed_id ++ " " ++ ifcp ++ ty ++ " " ++ val_str ++ " .\n"]⟩)

/-- Embeds CollectionHandler._process_single_item.  A dict whose ref
entry is missing or falsy (the integer 0) and which is not of SELECT
shape falls off the end of the Python branch and yields None, modelled as
Option.none. -/
def process_single_item (entity_id : Nat) (st : SelectState) :
    Value → Option (String × Nat × SelectState)
  | .ref r => if r ≠ 0 then some ("inst:ref_" ++ natRepr r, 0, st) else none
  | .typed ty v =>
      let p := process_select_value entity_id st ty v
      some (p.1, 0, p.2)
  | .emptyDict => none
  | .coll xs => some (format_collection_items xs, xs.length, st)
  | v => some (format_literal v, 0, st)

/-- Runs process_single_item over every item in order, collecting the
formatted items and the nonzero nested sizes (the loop of
CollectionHandler.process_collection). -/
def processItems (entity_id : Nat) :
    List Value → SelectState → Option (List String × List Nat × SelectState)
  | [], st => some ([], [], st)
  | item :: rest, st =>
    match process_single_item entity_id st item with
    | none => none
    | some (f, size, st2) =>
      match processItems entity_id rest st2 with
      | none => none
      | some (fs, szs, st3) =>
        some (f :: fs, (if size ≠ 0 then size :: szs else szs), st3)

/-- Embeds CollectionHandler.process_collection: empty collections yield
the () marker with triple count 1; SET joins items with commas and counts
one triple per item; LIST/ARRAY builds a parenthesized RDF collection
counting 1 + 2 per item + 2 per directly nested item; an unresolved kind
falls back on checking whether every formatted item starts with
inst:ref_. -/
def process_collection (entity_id : Nat) (items : List Value)
    (coll_type : Option String) (st : SelectState) :
    Option (String × Nat × SelectState) :=
  match items with
  | [] => some (("()"), 1, st)
  | _ =>
    match processItems entity_id items st with
    | none => none
    | some (formatted_items, nested_sizes, st2) =>
      if coll_type = some ("SET") then
        some (String.intercalate (", ") formatted_items, formatted_items.length, st2)
      else if coll_type = some ("LIST") ∨ coll_type = some ("ARRAY") then
        some ("( " ++ String.intercalate (" ") formatted_items ++ " )",
              1 + 2 * formatted_items.length + 2 * nested_sizes.sum, st2)
      else
        if formatted_items.all (fun it => pyStartsWith it ("inst:ref_")) then
          some (String.intercalate (", ") formatted_items, formatted_items.length, st2)
        else
          some ("( " ++ String.intercalate (" ") formatted_items ++ " )",
                1 + 2 * formatted_items.length + 2 * nested_sizes.sum, st2)

/-- A SchemaRegistry is its get_collection_type lookup: (entity type,
attribute name) to the collection kind.  The COLLECTION_TYPE_MAP data it
is built from lives outside the repository sources, so the lookup is kept
as a parameter. -/
def SchemaRegistry : Type := String → String → Option String

/-- Embeds SchemaRegistry.get_collection_type. -/
def get_collection_type (reg : SchemaRegistry) (entity_type attr_name : String) :
    Option String :=
  reg entity_type attr_name

/-- Embeds AttributeProcessor.process_attribute.  Collections are
delegated to process_collection, dicts with a truthy ref entry become a
single reference triple, SELECT-shaped dicts allocate a synthetic id and
contribute one triple, primitives become a literal triple.  A dict of any
other shape (empty dict, or a ref entry equal to 0) falls off the end of
the Python dict branch: the function returns None and the caller,
unpacking the result, raises; this is Option.none here. -/
def process_attribute (reg : SchemaRegistry) (entity_id : Nat)
    (entity_type : String) (key : String) (value : Value) (st : SelectState) :
    Option (String × Nat × SelectState) :=
  let coll_type := get_collection_type reg entity_type key
  match value with
  | .coll items =>
    match process_collection entity_id items coll_type st with
    | none => none
    | some (output, count, st2) =>
      some (" ;\n\t" ++ ifcp ++ key ++ " " ++ output, count, st2)
  | .ref r =>
    if r ≠ 0 then some (" ;\n\t" ++ ifcp ++ key ++ " inst:ref_" ++ natRepr r, 1, st)
    else none
  | .typed ty v =>
    let p := process_select_value entity_id st ty v
    some (" ;\n\t" ++ ifcp ++ key ++ " " ++ p.1, 1, p.2)
  | .emptyDict => none
  | v => some (" ;\n\t" ++ ifcp ++ key ++ " " ++ format_literal v, 1, st)

/-- One record of the entity stream: the id and type entries of the
Python dict plus the remaining attribute entries in delivery order.  An
attribute whose value is Python None carries Option.none and is skipped
by the writer loop. -/
structure Record where
  id : Option Nat
  type : Option String
  attrs : List (String × Option Value)

/-- Processes the attribute entries of one record in order (the inner
loop of string_stream_refactored): entries keyed id or type and None
values are skipped, every other value goes through process_attribute;
the fragments, the summed triple count and the final SELECT state are
returned. -/
def processAttrs (reg : SchemaRegistry) (entity_id : Nat) (entity_type : String) :
    List (String × Option Value) → SelectState →
    Option (List String × Nat × SelectState)
  | [], st => some ([], 0, st)
  | (key, val) :: rest, st =>
    match val with
    | none => processAttrs reg entity_id entity_type rest st
    | some v =>
      if key = ("id") ∨ key = ("type") then
        processAttrs reg entity_id entity_type rest st
      else
        match process_attribute reg entity_id entity_type key v st with
        | none => none
        | some (frag, cnt, st2) =>
          match processAttrs reg entity_id entity_type rest st2 with
          | none => none
          | some (frags, total, st3) => some (frag :: frags, cnt + total, st3)

/-- Embeds write_header of TTL_writer.py; the datetime.now() timestamp is
the explicit parameter now. -/
def write_header (now : String) (namespaces : List (String × String)) : String :=
  let BASE := (namespaces.lookup ("BASE")).getD ("http://example.org/base#")
  let importsNs :=
    match namespaces.lookup ("mifc") with
    | some m => m
    | none =>
      match namespaces.lookup ("ifc") with
      | some i => i
      | none => "None"
  String.join
    [ "# Turtle TTL output generated by refactored LBD writer.\n",
      "# Generated on: " ++ now ++ "\n",
      "# baseURI: " ++ BASE ++ "\n",
      "# imports: " ++ importsNs ++ "\n",
      "\n",
      "BASE <" ++ BASE ++ ">\n" ] ++
  String.join ((namespaces.filter (fun p => p.1 ≠ ("BASE"))).map
    (fun p => "PREFIX " ++ p.1 ++ ": <" ++ p.2 ++ ">\n")) ++
  "\n" ++ "inst:\ta\towl:Ontology ;\n" ++ "\towl:imports\tifc: .\n\n"

/-- The streaming loop of string_stream_refactored: records whose id is
absent or 0 or whose type is absent or empty are dropped silently; every
other record is rendered as its main block followed by its typed-entity
triples, appended to the buffer; the buffer is flushed to the output once
it reaches buffer_size entries and once more at the end when nonempty.
The accumulated output string, the running triple count and the number of
entities processed are threaded through; a failing attribute kills the
whole run (Option.none). -/
def streamLoop (reg : SchemaRegistry) (buffer_size : Nat) :
    List Record → List String → String → Nat → Nat → Option (String × Nat × Nat)
  | [], buffer, out, tc, ep =>
    some (if buffer.isEmpty then out else out ++ String.join buffer, tc, ep)
  | r :: rest, buffer, out, tc, ep =>
    match r.id, r.type with
    | some eid, some ety =>
      if eid = 0 ∨ ety = ("") then streamLoop reg buffer_size rest buffer out tc ep
      else
        match processAttrs reg eid ety r.attrs ⟨0, []⟩ with
        | none => none
        | some (frags, cnt, st) =>
          let block :=
            String.join (("inst:ref_" ++ natRepr eid ++ " a " ++ ifcp ++ ety) :: frags) ++
              " .\n\n"
          let buffer2 := (buffer ++ [block]) ++ st.typed_triples
          let tc2 := tc + 1 + cnt
          if buffer_size ≤ buffer2.length then
            streamLoop reg buffer_size rest [] (out ++ String.join buffer2) tc2 (ep + 1)
          else
            streamLoop reg buffer_size rest buffer2 out tc2 (ep + 1)
    | _, _ => streamLoop reg buffer_size rest buffer out tc ep

/-- Embeds string_stream_refactored of TTL_writer.py over an already
materialized record stream: write the header (2 counted triples for the
ontology statement), run the streaming loop, return the output text
together with the triples_written and entities_processed metrics. -/
def string_stream_refactored (reg : SchemaRegistry) (now : String)
    (namespaces : List (String × String)) (buffer_size : Nat)
    (records : List Record) : Option (String × Nat × Nat) :=
  streamLoop reg buffer_size records [] (write_header now namespaces) 2 0

/-!
Part 2: embedding of src/ifc2lbd/geometry.py.

The dependency-resolution step of geometry_processor.process is embedded
over an abstract file state taken after the two anchor links have been
severed: a list of entity ids together with the depth-1 entity-reference
map (file.traverse with max_levels 1, first element dropped, restricted
to entity instances).  The external toposort library is embedded by its
documented algorithm: repeatedly emit the sorted batch of items with no
remaining dependencies, treating dependency lists as sets and adding
items that occur only as dependencies; a residual cycle is Option.none
(the library raises CircularDependencyError).

The GUID lookup is embedded over an rdflib-style graph: a list of
triples over nodes that are IRIs, blank nodes or literals with an
optional datatype (language tags are not modelled; the source preserves
them unchanged).  Python float rounding of well-known-text numbers is
modelled in exact rational arithmetic.
-/

/-- Insertion step for sorting a batch of ids. -/
def insertSorted (n : Nat) : List Nat → List Nat
  | [] => [n]
  | m :: rest => if n ≤ m then n :: m :: rest else m :: insertSorted n rest

/-- Ascending sort of a batch of ids, modelling Python sorted() inside
toposort_flatten. -/
def sortNats : List Nat → List Nat
  | [] => []
  | n :: rest => insertSorted n (sortNats rest)

/-- Items occurring only in dependency lists (after self-dependencies
are dropped), each to be added as a key with no dependencies. -/
def prepExtras (data : List (Nat × List Nat)) : List Nat :=
  (((data.map (fun p => (p.1, p.2.filter (fun d => d ≠ p.1)))).map Prod.snd).flatten.filter
    (fun i => ¬ ((data.map (fun p =>
      (p.1, p.2.filter (fun d => d ≠ p.1)))).map Prod.fst).contains i)).dedup

/-- Preparation step of the toposort library: drop self-dependencies and
add every item that occurs only as a dependency as a key with no
dependencies. -/
def toposortPrep (data : List (Nat × List Nat)) : List (Nat × List Nat) :=
  data.map (fun p => (p.1, p.2.filter (fun d => d ≠ p.1))) ++
    (prepExtras data).map (fun i => (i, []))

/-- Items of the pending map with no remaining dependencies (one round
of the toposort library). -/
def topoReady (pending : List (Nat × List Nat)) : List Nat :=
  (pending.filter (fun p => p.2.isEmpty)).map Prod.fst

/-- Pending map after one round: the emitted items are removed as keys
and subtracted from every remaining dependency list. -/
def topoRest (pending : List (Nat × List Nat)) : List (Nat × List Nat) :=
  (pending.filter (fun p => ¬ (topoReady pending).contains p.1)).map
    (fun p => (p.1, p.2.filter (fun d => ¬ (topoReady pending).contains d)))

/-- Main loop of the toposort library: emit the sorted batch of items
with no remaining dependencies, remove them from the pending map and from
every remaining dependency list, fail on a residual cycle. -/
def topoIter : Nat → List (Nat × List Nat) → Option (List Nat)
  | _, [] => some []
  | 0, _ => none
  | fuel+1, pending =>
    if (topoReady pending).isEmpty then none
    else
      match topoIter fuel (topoRest pending) with
      | none => none
      | some tl => some (sortNats (topoReady pending) ++ tl)

/-- Embeds toposort.toposort_flatten with sorting enabled. -/
def toposort_flatten (data : List (Nat × List Nat)) : Option (List Nat) :=
  let prep := toposortPrep data
  topoIter (prep.length + 1) prep

/-- File state seen by the dependency-resolution loop: the entity ids
present in the file and the depth-1 entity references of each entity
(after the representation-map and shape-representation anchor links have
been severed). -/
structure GeomModel where
  entities : List Nat
  refsOf : Nat → List Nat

/-- Embeds file.get_inverse: every entity of the file whose depth-1
references contain the given id. -/
def get_inverse (m : GeomModel) (i : Nat) : List Nat :=
  m.entities.filter (fun j => (m.refsOf j).contains i)

/-- Embeds the obsolete-collection loop of geometry_processor.process:
build the dependency map of the collected geometry set, order it
topologically, then walk that order appending every instance whose
inverse references all lie inside the geometry set. -/
def obsolete_instances (m : GeomModel) (all_geometry : List Nat) : Option (List Nat) :=
  (toposort_flatten (all_geometry.map (fun i => (i, m.refsOf i)))).map
    (fun order => order.filter
      (fun i => (get_inverse m i).all (fun j => all_geometry.contains j)))

/-- Nodes of the parsed geometry graph: IRI references, blank nodes, and
literals carrying an optional datatype IRI. -/
inductive RNode where
  | uri (s : String)
  | bnode (s : String)
  | lit (s : String) (dt : Option String)
deriving DecidableEq

/-- Triple store parsed from the geometry buffer; rdflib iteration order
is modelled by the list order. -/
structure RGraph where
  triples : List (RNode × RNode × RNode)

/-- Embeds graph.predicate_objects: the predicate/object pairs of every
triple with the given subject, in store order. -/
def predicate_objects (g : RGraph) (s : RNode) : List (RNode × RNode) :=
  g.triples.filterMap (fun t => if t.1 = s then some (t.2.1, t.2.2) else none)

/-- The rdflib RDFS.label IRI. -/
def rdfsLabelIRI : String := "http://www.w3.org/2000/01/rdf-schema#label"

/-- The rdflib DCTERMS.identifier IRI. -/
def dctermsIdentIRI : String := "http://purl.org/dc/terms/identifier"

/-- The rdflib RDF.type IRI. -/
def rdfTypeIRI : String := "http://www.w3.org/1999/02/22-rdf-syntax-ns#type"

/-- The wktLiteral datatype IRI bound to wkt_lit in geometry.py. -/
def wktLitIRI : String := "http://www.opengis.net/ont/geosparql#wktLiteral"

/-- The derived/computed-only marker substring skipped by the traversal. -/
def markerStr : String := "body_footprint_geometry"

/-- Lexical string of a node, the Python str() that the substring test
runs over. -/
def nodeStr : RNode → String
  | .uri s => s
  | .bnode s => s
  | .lit s _ => s

/-- Substring test modelling the Python expression testing whether the
marker occurs in a node. -/
def hasMarker (v : RNode) : Bool := decide (markerStr.data <:+: (nodeStr v).data)

/-- Predicate test of the traversal: label and identifier annotation
predicates are skipped. -/
def isLabelOrIdent (p : RNode) : Bool :=
  p == RNode.uri rdfsLabelIRI || p == RNode.uri dctermsIdentIRI

/-- Decimal digit test on characters. -/
def isDigitC (c : Char) : Bool := 48 ≤ c.toNat && c.toNat ≤ 57

/-- Numeric value of a run of decimal digit characters. -/
def digitsVal (ds : List Char) : Nat := ds.foldl (fun a c => a * 10 + (c.toNat - 48)) 0

/-- Consumes the optional leading sign of a number token. -/
def parseSign (l : List Char) : Bool × List Char :=
  match l with
  | c :: rest =>
    if c = ('-' : Char) then (true, rest)
    else if c = ('+' : Char) then (false, rest) else (false, l)
  | [] => (false, l)

/-- Consumes a fraction part when the input starts with a decimal
point: the fraction digits and the rest. -/
def parseFrac (l : List Char) : Option (List Char × List Char) :=
  match l with
  | c :: l3 => if c = ('.' : Char) then some (l3.span isDigitC) else none
  | [] => none

/-- Consumes an optional exponent part (e or E, an optional sign and at
least one digit); when the digits are missing nothing is consumed. -/
def parseExp (l : List Char) : Option (Bool × List Char) × List Char :=
  match l with
  | c :: rest =>
    if c = ('e' : Char) ∨ c = ('E' : Char) then
      let se : Bool × List Char :=
        match rest with
        | d :: r3 =>
          if d = ('-' : Char) then (true, r3)
          else if d = ('+' : Char) then (false, r3) else (false, rest)
        | [] => (false, rest)
      let pe := se.2.span isDigitC
      if pe.1.isEmpty then (none, l) else (some (se.1, pe.1), pe.2)
    else (none, l)
  | [] => (none, l)

/-- Matches the leading number token of num_regexp (optional sign, then
digits with an optional fraction or a bare fraction, then an optional
exponent), returning its exact rational value and the rest of the input;
none when no number starts here. -/
def matchNum (l : List Char) : Option (Rat × List Char) :=
  let sl := parseSign l
  let neg := sl.1
  let p1 := sl.2.span isDigitC
  let ip := p1.1
  let fr := parseFrac p1.2
  if _hm : ip ≠ [] ∨ (∃ q, fr = some q ∧ q.1 ≠ []) then
    let fp := (fr.map Prod.fst).getD []
    let afterMant := ((fr.map Prod.snd).getD p1.2)
    let ex := parseExp afterMant
    let mant : Rat := (digitsVal ip : Rat) + (digitsVal fp : Rat) / ((10 : Rat) ^ fp.length)
    let signed : Rat := if neg then -mant else mant
    let valued : Rat :=
      match ex.1 with
      | some se => if se.1 then signed / ((10 : Rat) ^ (digitsVal se.2))
                   else signed * ((10 : Rat) ^ (digitsVal se.2))
      | none => signed
    some (valued, ex.2)
  else none

/-- Round half to even on rationals, modelling Python round to an
integer (the source rounds binary doubles; exact rationals are used
here). -/
def roundHalfEven (q : Rat) : Int :=
  let f := ⌊q⌋
  let r := q - (f : Rat)
  if r < 1/2 then f
  else if 1/2 < r then f + 1
  else if f % 2 = 0 then f else f + 1

/-- Strips every trailing occurrence of a character, modelling Python
rstrip with a single character. -/
def rstripChar (c : Char) (l : List Char) : List Char :=
  (l.reverse.dropWhile (fun d => d = c)).reverse

/-- Replacement text for one matched number: round at 6 decimal digits,
render in fixed-point with 6 decimals, strip trailing zeros and the
trailing point, and map the empty and the minus-zero results to 0 (the
repl closure inside the traversal). -/
def roundRepl (q : Rat) : List Char :=
  let n6 := roundHalfEven (q * 1000000)
  let a := n6.natAbs
  let ipd := (natRepr (a / 1000000)).data
  let fpd := (natRepr (a % 1000000 + 1000000)).data.tail
  let base := (if n6 < 0 then [('-' : Char)] else []) ++ ipd ++ [('.' : Char)] ++ fpd
  let stripped := rstripChar ('.' : Char) (rstripChar ('0' : Char) base)
  if stripped.isEmpty ∨ stripped = [('-' : Char), ('0' : Char)] then [('0' : Char)]
  else stripped

/-- Left-to-right scan of num_regexp.sub: at each position replace the
leading number match, otherwise keep the character; the fuel is the
length of the input, which the scan never exhausts since every step
consumes at least one character. -/
def numSubGo : Nat → List Char → List Char
  | 0, l => l
  | _+1, [] => []
  | fuel+1, c :: rest =>
    match matchNum (c :: rest) with
    | some qr => roundRepl qr.1 ++ numSubGo fuel qr.2
    | none => c :: numSubGo fuel rest

/-- Embeds num_regexp.sub(repl, s). -/
def numSub (l : List Char) : List Char := numSubGo l.length l

/-- Embeds round_wkt_lit: literals with the wktLiteral datatype get
their numbers rounded, everything else is unchanged. -/
def round_wkt_lit (o : RNode) : RNode :=
  match o with
  | .lit s (some dt) =>
    if dt = wktLitIRI then RNode.lit (String.mk (numSub s.data)) (some dt) else o
  | _ => o

/-- Resource test used before pushing an object on the traversal stack
(rdflib URIRef or BNode). -/
def isResource : RNode → Bool
  | .uri _ => true
  | .bnode _ => true
  | .lit _ _ => false

/-- Embeds the bfs inner function of geometry_processor.lookup.  The
Python code pops from the end of the list named stack, so the traversal
is stack-driven; the stack is modelled head-first, hence newly pushed
objects are prepended in reverse.  Skipped are already-visited nodes,
label/identifier predicates and objects containing the marker; emitted
objects pass through round_wkt_lit; only resource objects are pushed. -/
def bfsGo (g : RGraph) : Nat → List RNode → List RNode → List (RNode × RNode × RNode)
  | 0, _, _ => []
  | _+1, [], _ => []
  | fuel+1, s :: stackRest, visited =>
    if visited.contains s then bfsGo g fuel stackRest visited
    else
      let pos := (predicate_objects g s).filter
        (fun po => !(isLabelOrIdent po.1) && !(hasMarker po.2))
      let emitted := pos.map (fun po => (s, po.1, round_wkt_lit po.2))
      let pushes := (pos.filter (fun po => isResource po.2)).map Prod.snd
      emitted ++ bfsGo g fuel (pushes.reverse ++ stackRest) (s :: visited)

/-- The traversal as called by lookup: one start node, empty visited
set; the fuel bound suffices because every stack entry is either the
start node or one of the at most triples.length pushed objects. -/
def bfs (g : RGraph) (start : RNode) : List (RNode × RNode × RNode) :=
  bfsGo g (g.triples.length + 1) [start] []

/-- First namespace entry whose IRI prefixes the given IRI (the loop
over namespaces.items() inside fmt). -/
def nsCompact (namespaces : List (String × String)) (u : String) :
    Option (String × String) :=
  namespaces.find? (fun kn => pyStartsWith u kn.2)

/-- Embeds the fmt closure of geometry_processor.lookup: rdf:type
renders as a, IRIs compact against the first matching namespace or fall
back to angle brackets; blank nodes and literals render through n3
(approximated with the full datatype IRI
and without escaping, which the source itself leaves incomplete). -/
def fmtNode (namespaces : List (String × String)) (v : RNode) : String :=
  match v with
  | .uri u =>
    if u = rdfTypeIRI then ("a")
    else
      match nsCompact namespaces u with
      | some kn => kn.1 ++ ":" ++ (u.drop kn.2.length)
      | none => "<" ++ u ++ ">"
  | .bnode b => "_:" ++ b
  | .lit s dt =>
    "\"" ++ s ++ "\"" ++ (match dt with | some d => "^^<" ++ d ++ ">" | none => (""))

/-- Index state of a geometry_processor after process() has parsed the
buffer: the triple store and the decoded-GUID index. -/
structure GeomIndex where
  graph : RGraph
  guid_to_uri : List (String × List RNode)

/-- Embeds geometry_processor.lookup: a missing or falsy GlobalId yields
nothing; otherwise every feature subject indexed under the GUID is
traversed, the root subject is replaced by the caller-supplied label and
every other component is rendered through fmt. -/
def geometry_lookup (gp : GeomIndex) (globalId : Option String) (subject : String)
    (namespaces : List (String × String)) : List (String × String × String) :=
  match globalId with
  | none => []
  | some g =>
    if g = ("") then []
    else
      ((gp.guid_to_uri.lookup g).getD []).flatMap (fun s =>
        (bfs gp.graph s).map (fun t =>
          ((if t.1 = s then subject else fmtNode namespaces t.1),
           fmtNode namespaces t.2.1, fmtNode namespaces t.2.2)))

/-- Modelled from the spec: a first-in-first-out breadth-first variant
of the traversal, following the wording of the specification (traversal
is breadth-first); identical to bfsGo except that newly discovered
objects are enqueued behind the pending ones. -/
def breadthFirstReference (g : RGraph) :
    Nat → List RNode → List RNode → List (RNode × RNode × RNode)
  | 0, _, _ => []
  | _+1, [], _ => []
  | fuel+1, s :: queueRest, visited =>
    if visited.contains s then breadthFirstReference g fuel queueRest visited
    else
      let pos := (predicate_objects g s).filter
        (fun po => !(isLabelOrIdent po.1) && !(hasMarker po.2))
      let emitted := pos.map (fun po => (s, po.1, round_wkt_lit po.2))
      let pushes := (pos.filter (fun po => isResource po.2)).map Prod.snd
      emitted ++ breadthFirstReference g fuel (queueRest ++ pushes) (s :: visited)

/-!
Observer definitions used only to state properties, and concrete example
inputs for the witnesses and counterexamples.
-/

/-- Number of elements a directly nested collection item contributes to
the nested-size bookkeeping (zero for a non-collection item). -/
def nestedLen : Value → Nat
  | .coll xs => xs.length
  | _ => 0

/-- Items whose formatted text is a synthetic instance id: plain
references and SELECT-typed values. -/
def refOrTyped : Value → Bool
  | .ref _ => true
  | .typed _ _ => true
  | _ => false

/-- Text chunks one record contributes to the output (its main block
followed by its typed-entity triples), together with its triple count
(type assertion plus attribute counts, the auxiliary statements not
included) and whether it was counted as processed; dropped records
contribute nothing. -/
def entityChunks (reg : SchemaRegistry) (r : Record) : Option (List String × Nat × Nat) :=
  match r.id, r.type with
  | some eid, some ety =>
    if eid = 0 ∨ ety = ("") then some ([], 0, 0)
    else
      match processAttrs reg eid ety r.attrs ⟨0, []⟩ with
      | none => none
      | some (frags, cnt, st) =>
        some ((String.join (("inst:ref_" ++ natRepr eid ++ " a " ++ ifcp ++ ety) :: frags) ++
                 " .\n\n") :: st.typed_triples,
              1 + cnt, 1)
  | _, _ => some ([], 0, 0)

/-- Chunks, triple count and processed count of a whole record stream. -/
def runChunks (reg : SchemaRegistry) : List Record → Option (List String × Nat × Nat)
  | [] => some ([], 0, 0)
  | r :: rest =>
    match entityChunks reg r, runChunks reg rest with
    | some x, some y => some (x.1 ++ y.1, x.2.1 + y.2.1, x.2.2 + y.2.2)
    | _, _ => none

/-- One element occurs strictly before another in a list. -/
def comesBefore (l : List Nat) (a b : Nat) : Prop :=
  ∃ l1 l2 l3, l = l1 ++ a :: l2 ++ b :: l3

/-- Characters that can occur in a rounded-number replacement. -/
def isReplChar (c : Char) : Bool :=
  isDigitC c || c == ('-' : Char) || c == ('.' : Char)

/-- Triples one visited node contributes to the traversal output. -/
def emitBatch (g : RGraph) (s : RNode) : List (RNode × RNode × RNode) :=
  ((predicate_objects g s).filter
      (fun po => !(isLabelOrIdent po.1) && !(hasMarker po.2))).map
    (fun po => (s, po.1, round_wkt_lit po.2))

/-- Registry resolving the tags attribute of Wall to LIST. -/
def regC3 : SchemaRegistry := fun ty attr =>
  if ty = ("Wall") ∧ attr = ("tags") then some ("LIST") else none

/-- Registry with no collection entries. -/
def regNone : SchemaRegistry := fun _ _ => none

/-- The end-to-end example record with id 42. -/
def recC3 : Record :=
  ⟨some 42, some ("Wall"),
    [(("name"), some (Value.ref 7)),
     (("tags"), some (Value.coll [Value.str ("A"), Value.str ("B")]))]⟩

/-- A record with one SELECT-typed attribute. -/
def recDoor : Record :=
  ⟨some 9, some ("Door"),
    [(("material"), some (Value.typed ("IfcLabel") (Value.str ("Oak"))))]⟩

/-- A record whose attribute value is a dict of unrecognized shape. -/
def recBad : Record :=
  ⟨some 1, some ("Wall"), [(("x"), some Value.emptyDict)]⟩

/-- Example namespace table. -/
def nsEx : List (String × String) :=
  [(("BASE"), ("http://example.org/base#")), (("inst"), ("https://lbd-lbd.lbd/ifc/instances#"))]

/-- Dependency chain A=3 references B=2 references C=1, nothing else. -/
def mChain : GeomModel :=
  ⟨[1, 2, 3], fun i => if i = 3 then [2] else if i = 2 then [1] else []⟩

/-- Same chain plus an external entity D=4 referencing B=2. -/
def mD : GeomModel :=
  ⟨[1, 2, 3, 4],
   fun i => if i = 3 then [2] else if i = 2 then [1] else if i = 4 then [2] else []⟩

/-- Shorthand for an IRI node. -/
def nU (s : String) : RNode := RNode.uri s

/-- Example graph: root R points at A and B, A at D, B at C. -/
def gEx : RGraph :=
  ⟨[(nU ("R"), nU ("p1"), nU ("A")), (nU ("R"), nU ("p2"), nU ("B")),
    (nU ("A"), nU ("p3"), nU ("D")), (nU ("B"), nU ("p4"), nU ("C"))]⟩

/-- Root node of the example graph. -/
def rootEx : RNode := nU ("R")

/-- Example index over the example graph. -/
def gpEx : GeomIndex := ⟨gEx, [(("G1"), [rootEx])]⟩

/-- Invariant of a SELECT-handler state owned by an entity: one stored
triple per allocated counter value, the j-th stored triple opening with
the synthetic id of allocation j+1. -/
def TypedOk (eid : Nat) (st : SelectState) : Prop :=
  st.typed_triples.length = st.counter ∧
  ∀ j (hj : j < st.typed_triples.length),
    ∃ tl, st.typed_triples[j] = mkTypedId eid (j + 1) ++ " " ++ tl

/-!
Theorems.  First a toolkit about decimal renderings and synthetic ids.
-/

theorem natDigsGo_eq : ∀ (fuel n : Nat), n ≤ fuel →
    natDigsGo fuel n = ((Nat.digits 10 n).map Nat.digitChar).reverse := by
  intro fuel
  induction fuel with
  | zero =>
    intro n hn
    have : n = 0 := Nat.le_zero.mp hn
    simp [natDigsGo, this]
  | succ f ih =>
    intro n hn
    by_cases h0 : n = 0
    · simp [natDigsGo, h0]
    · have hdiv : n / 10 ≤ f := by
        have := Nat.div_lt_self (Nat.pos_of_ne_zero h0) (by norm_num : 1 < 10)
        omega
      simp only [natDigsGo, if_neg h0]
      rw [ih _ hdiv, Nat.digits_def' (by norm_num : (1:Nat) < 10) (Nat.pos_of_ne_zero h0)]
      simp

theorem natRepr_eq (n : Nat) : natRepr n =
    if n = 0 then ("0") else String.mk (((Nat.digits 10 n).map Nat.digitChar).reverse) := by
  unfold natRepr
  by_cases h : n = 0
  · simp [h]
  · simp [h, natDigsGo_eq n n le_rfl]

theorem digitChar_inj10 : ∀ d, d < 10 → ∀ e, e < 10 →
    Nat.digitChar d = Nat.digitChar e → d = e := by decide

theorem digitChar_isDigit : ∀ d, d < 10 → isDigitC (Nat.digitChar d) = true := by decide

theorem mapDigitChar_inj : ∀ (l1 l2 : List Nat), (∀ d ∈ l1, d < 10) → (∀ d ∈ l2, d < 10) →
    l1.map Nat.digitChar = l2.map Nat.digitChar → l1 = l2 := by
  intro l1
  induction l1 with
  | nil =>
    intro l2 _ _ h
    cases l2 with
    | nil => rfl
    | cons b t => simp at h
  | cons a t ih =>
    intro l2 h1 h2 h
    cases l2 with
    | nil => simp at h
    | cons b t2 =>
      simp only [List.map_cons, List.cons.injEq] at h
      have ha : a = b := digitChar_inj10 a (h1 a (by simp)) b (h2 b (by simp)) h.1
      have ht : t = t2 := ih t2 (fun d hd => h1 d (by simp [hd])) (fun d hd => h2 d (by simp [hd])) h.2
      rw [ha, ht]

theorem natRepr_inj : ∀ m n : Nat, natRepr m = natRepr n → m = n := by
  intro m n h
  rw [natRepr_eq m, natRepr_eq n] at h
  by_cases hm : m = 0 <;> by_cases hn : n = 0 <;> simp [hm, hn] at h ⊢
  · -- m = 0, n ≠ 0: the digit list of n would be [0]
    have hl : [Char.ofNat 48] = ((Nat.digits 10 n).map Nat.digitChar).reverse :=
      congrArg String.data (by simpa using h)
    have hl2 : (Nat.digits 10 n).map Nat.digitChar = [Char.ofNat 48] := by
      have := congrArg List.reverse hl
      simpa using this.symm
    have hd : Nat.digits 10 n = [0] := by
      have : (Nat.digits 10 n).map Nat.digitChar = [0].map Nat.digitChar := by
        simpa using hl2
      exact mapDigitChar_inj _ _
        (fun d hd => Nat.digits_lt_base (by norm_num) hd) (by simp) this
    have h0 := Nat.ofDigits_digits 10 n
    rw [hd] at h0
    simp [Nat.ofDigits] at h0
    exact absurd h0.symm hn
  · -- m ≠ 0, n = 0: symmetric
    have hl : ((Nat.digits 10 m).map Nat.digitChar).reverse = [Char.ofNat 48] :=
      congrArg String.data (by simpa using h)
    have hl2 : (Nat.digits 10 m).map Nat.digitChar = [Char.ofNat 48] := by
      have := congrArg List.reverse hl
      simpa using this
    have hd : Nat.digits 10 m = [0] := by
      have : (Nat.digits 10 m).map Nat.digitChar = [0].map Nat.digitChar := by
        simpa using hl2
      exact mapDigitChar_inj _ _
        (fun d hd => Nat.digits_lt_base (by norm_num) hd) (by simp) this
    have h0 := Nat.ofDigits_digits 10 m
    rw [hd] at h0
    simp [Nat.ofDigits] at h0
    exact absurd h0.symm hm
  · -- both nonzero
    have hl : ((Nat.digits 10 m).map Nat.digitChar).reverse =
        ((Nat.digits 10 n).map Nat.digitChar).reverse := congrArg String.data (by simpa using h)
    have hl2 : (Nat.digits 10 m).map Nat.digitChar = (Nat.digits 10 n).map Nat.digitChar := by
      have := congrArg List.reverse hl
      simpa using this
    have hd : Nat.digits 10 m = Nat.digits 10 n :=
      mapDigitChar_inj _ _ (fun d hd => Nat.digits_lt_base (by norm_num) hd)
        (fun d hd => Nat.digits_lt_base (by norm_num) hd) hl2
    have := congrArg (Nat.ofDigits 10) hd
    simpa [Nat.ofDigits_digits] using this

theorem natRepr_isDigit : ∀ n : Nat, ∀ c ∈ (natRepr n).data, isDigitC c = true := by
  intro n c hc
  rw [natRepr_eq n] at hc
  by_cases hn : n = 0 <;> simp [hn] at hc
  · rw [hc]; decide
  · rcases hc with ⟨d, hd, rfl⟩
    exact digitChar_isDigit d (Nat.digits_lt_base (by norm_num) hd)

theorem sepSplit : ∀ (a a2 b b2 : List Char),
    (∀ c ∈ a, isDigitC c = true) → (∀ c ∈ a2, isDigitC c = true) →
    a ++ (('_' : Char) :: b) = a2 ++ (('_' : Char) :: b2) → a = a2 ∧ b = b2 := by
  intro a
  induction a with
  | nil =>
    intro a2 b b2 _ h2 h
    cases a2 with
    | nil => simpa using h
    | cons c t =>
      exfalso
      simp only [List.nil_append, List.cons_append, List.cons.injEq] at h
      have hc := h2 c (by simp)
      rw [← h.1] at hc
      exact absurd hc (by decide)
  | cons x xs ih =>
    intro a2 b b2 h1 h2 h
    cases a2 with
    | nil =>
      exfalso
      simp only [List.cons_append, List.nil_append, List.cons.injEq] at h
      have hc := h1 x (by simp)
      rw [h.1] at hc
      exact absurd hc (by decide)
    | cons y ys =>
      simp only [List.cons_append, List.cons.injEq] at h
      have := ih ys b b2 (fun c hc => h1 c (by simp [hc])) (fun c hc => h2 c (by simp [hc])) h.2
      exact ⟨by rw [h.1, this.1], this.2⟩

theorem mkTypedId_inj : ∀ e n e2 n2 : Nat,
    mkTypedId e n = mkTypedId e2 n2 ↔ (e = e2 ∧ n = n2) := by
  intro e n e2 n2
  constructor
  · intro h
    unfold mkTypedId at h
    have et : ("_t" : String).data = [('_' : Char), ('t' : Char)] := rfl
    have h9 : ("inst:ref_" : String).data ++
          ((natRepr e).data ++ (('_' : Char) :: (('t' : Char) :: (natRepr n).data))) =
        ("inst:ref_" : String).data ++
          ((natRepr e2).data ++ (('_' : Char) :: (('t' : Char) :: (natRepr n2).data))) := by
      have := congrArg String.data h
      simpa [String.data_append, et, List.append_assoc] using this
    have h10 := List.append_cancel_left h9
    have h11 := sepSplit _ _ _ _ (natRepr_isDigit e) (natRepr_isDigit e2) h10
    have he : e = e2 := natRepr_inj _ _ (String.ext h11.1)
    have h12 : (natRepr n).data = (natRepr n2).data := by
      have := h11.2
      simpa using this
    exact ⟨he, natRepr_inj _ _ (String.ext h12)⟩
  · rintro ⟨rfl, rfl⟩; rfl

theorem strSplitHead (a b c d e f g : String) :
    ∃ tl, a ++ b ++ c ++ d ++ e ++ f ++ g = a ++ b ++ tl :=
  ⟨c ++ (d ++ (e ++ (f ++ g))), by simp [String.append_assoc]⟩

theorem psv_typedOk (eid : Nat) (st : SelectState) (ty : String) (v : Value)
    (h : TypedOk eid st) : TypedOk eid (process_select_value eid st ty v).2 := by
  obtain ⟨hlen, hget⟩ := h
  refine ⟨by simp [process_select_value, hlen], ?_⟩
  intro j hj
  simp only [process_select_value] at hj ⊢
  rcases Nat.lt_or_ge j st.typed_triples.length with hlt | hge
  · obtain ⟨tl, htl⟩ := hget j hlt
    refine ⟨tl, ?_⟩
    rw [List.getElem_append_left hlt]
    exact htl
  · have hj2 : j < st.typed_triples.length + 1 := by
      simpa using hj
    have hjeq : j = st.typed_triples.length := Nat.le_antisymm (Nat.lt_succ_iff.mp hj2) hge
    subst hjeq
    rw [List.getElem_concat_length _ _ _ rfl]
    simp only [hlen]
    exact strSplitHead _ _ _ _ _ _ _

theorem psi_typedOk (eid : Nat) (st : SelectState) (it : Value) (f : String) (n : Nat)
    (st2 : SelectState) (h : process_single_item eid st it = some (f, n, st2))
    (hok : TypedOk eid st) : TypedOk eid st2 := by
  cases it with
  | ref r =>
    rcases Decidable.em (r = 0) with hr | hr
    · simp [process_single_item, hr] at h
    · simp [process_single_item, hr] at h
      exact h.2.2 ▸ hok
  | typed ty v =>
    simp [process_single_item] at h
    exact h.2.2 ▸ psv_typedOk eid st ty v hok
  | emptyDict => simp [process_single_item] at h
  | coll xs =>
    simp [process_single_item] at h
    exact h.2.2 ▸ hok
  | str s =>
    simp [process_single_item] at h
    exact h.2.2 ▸ hok
  | bool b =>
    simp [process_single_item] at h
    exact h.2.2 ▸ hok
  | int m =>
    simp [process_single_item] at h
    exact h.2.2 ▸ hok

theorem processItems_typedOk (eid : Nat) : ∀ (items : List Value) (st : SelectState)
    (fs : List String) (szs : List Nat) (st2 : SelectState),
    processItems eid items st = some (fs, szs, st2) → TypedOk eid st → TypedOk eid st2 := by
  intro items
  induction items with
  | nil =>
    intro st fs szs st2 h hok
    simp [processItems] at h
    exact h.2.2 ▸ hok
  | cons it rest ih =>
    intro st fs szs st2 h hok
    rcases h1 : process_single_item eid st it with _ | ⟨⟨f, n, stm⟩⟩
    · simp [processItems, h1] at h
    · rcases h2 : processItems eid rest stm with _ | ⟨⟨fs2, szs2, st3⟩⟩
      · simp [processItems, h1, h2] at h
      · simp [processItems, h1, h2] at h
        exact h.2.2 ▸ ih stm fs2 szs2 st3 h2 (psi_typedOk eid st it f n stm h1 hok)

theorem process_collection_typedOk (eid : Nat) (items : List Value) (ct : Option String)
    (st : SelectState) (out : String) (cnt : Nat) (st2 : SelectState)
    (h : process_collection eid items ct st = some (out, cnt, st2)) (hok : TypedOk eid st) :
    TypedOk eid st2 := by
  cases items with
  | nil =>
    simp [process_collection] at h
    exact h.2.2 ▸ hok
  | cons a rest =>
    rcases h1 : processItems eid (a :: rest) st with _ | ⟨⟨fs, szs, stm⟩⟩
    · simp [process_collection, h1] at h
    · have hok2 := processItems_typedOk eid _ _ _ _ _ h1 hok
      simp only [process_collection, h1] at h
      split at h
      · simp at h; exact h.2.2 ▸ hok2
      · split at h
        · simp at h; exact h.2.2 ▸ hok2
        · split at h
          · simp at h; exact h.2.2 ▸ hok2
          · simp at h; exact h.2.2 ▸ hok2

theorem process_attribute_typedOk (reg : SchemaRegistry) (eid : Nat) (ety key : String)
    (v : Value) (st : SelectState) (frag : String) (cnt : Nat) (st2 : SelectState)
    (h : process_attribute reg eid ety key v st = some (frag, cnt, st2))
    (hok : TypedOk eid st) : TypedOk eid st2 := by
  cases v with
  | coll items =>
    rcases h1 : process_collection eid items (get_collection_type reg ety key) st
      with _ | ⟨⟨o, c, stm⟩⟩
    · simp [process_attribute, h1] at h
    · simp [process_attribute, h1] at h
      exact h.2.2 ▸ process_collection_typedOk eid items _ st o c stm h1 hok
  | ref r =>
    rcases Decidable.em (r = 0) with hr | hr
    · simp [process_attribute, hr] at h
    · simp [process_attribute, hr] at h
      exact h.2.2 ▸ hok
  | typed ty v2 =>
    simp [process_attribute] at h
    exact h.2.2 ▸ psv_typedOk eid st ty v2 hok
  | emptyDict => simp [process_attribute] at h
  | str s =>
    simp [process_attribute] at h
    exact h.2.2 ▸ hok
  | bool b =>
    simp [process_attribute] at h
    exact h.2.2 ▸ hok
  | int m =>
    simp [process_attribute] at h
    exact h.2.2 ▸ hok

theorem processAttrs_typedOk (reg : SchemaRegistry) (eid : Nat) (ety : String) :
    ∀ (attrs : List (String × Option Value)) (st : SelectState) (frags : List String)
    (cnt : Nat) (st2 : SelectState),
    processAttrs reg eid ety attrs st = some (frags, cnt, st2) → TypedOk eid st →
    TypedOk eid st2 := by
  intro attrs
  induction attrs with
  | nil =>
    intro st frags cnt st2 h hok
    simp [processAttrs] at h
    exact h.2.2 ▸ hok
  | cons kv rest ih =>
    intro st frags cnt st2 h hok
    rcases kv with ⟨key, val⟩
    cases val with
    | none =>
      simp only [processAttrs] at h
      exact ih st frags cnt st2 h hok
    | some v =>
      simp only [processAttrs] at h
      split at h
      · exact ih st frags cnt st2 h hok
      · rcases h1 : process_attribute reg eid ety key v st with _ | ⟨⟨frag, c, stm⟩⟩
        · simp [h1] at h
        · rcases h2 : processAttrs reg eid ety rest stm with _ | ⟨⟨fs2, c2, st3⟩⟩
          · simp [h1, h2] at h
          · simp [h1, h2] at h
            exact h.2.2 ▸ ih stm fs2 c2 st3 h2
              (process_attribute_typedOk reg eid ety key v st frag c stm h1 hok)

/-- C7: the synthetic ids allocated for the TypedValues of one entity
are inst:ref_(id)_t(n) with n counting the allocations from 1 upward in
steps of one (the j-th stored auxiliary triple opens with the id of
allocation j+1), and the id determines the owning entity id and the
allocation index uniquely, so ids are unique within an entity and are
never shared between entities with different ids; the serializer starts
every entity from the fresh state with counter 0, so the numbering
resets per entity. -/
theorem c7_typed_value_ids (reg : SchemaRegistry) (eid : Nat) (ety : String)
    (attrs : List (String × Option Value)) (frags : List String) (cnt : Nat)
    (st : SelectState)
    (h : processAttrs reg eid ety attrs ⟨0, []⟩ = some (frags, cnt, st)) :
    (st.typed_triples.length = st.counter
      ∧ ∀ j (hj : j < st.typed_triples.length),
          ∃ tl, st.typed_triples[j] = mkTypedId eid (j + 1) ++ " " ++ tl)
    ∧ (∀ e n e2 n2 : Nat, mkTypedId e n = mkTypedId e2 n2 ↔ (e = e2 ∧ n = n2)) := by
  refine ⟨?_, mkTypedId_inj⟩
  exact processAttrs_typedOk reg eid ety attrs ⟨0, []⟩ frags cnt st h
    ⟨rfl, fun j hj => absurd hj (by simp)⟩

/-- Witness for C7: the Door record allocates exactly one synthetic id
inst:ref_9_t1. -/
theorem c7_typed_value_ids_witness :
    ((SelectState.mk 1 ["inst:ref_9_t1 ifc:IfcLabel \"Oak\" .\n"]).typed_triples.length =
        (SelectState.mk 1 ["inst:ref_9_t1 ifc:IfcLabel \"Oak\" .\n"]).counter
      ∧ (∀ j (hj : j < (SelectState.mk 1
            ["inst:ref_9_t1 ifc:IfcLabel \"Oak\" .\n"]).typed_triples.length),
          ∃ tl, (SelectState.mk 1 ["inst:ref_9_t1 ifc:IfcLabel \"Oak\" .\n"]).typed_triples[j] =
            mkTypedId 9 (j + 1) ++ " " ++ tl))
    ∧ (∀ e n e2 n2 : Nat, mkTypedId e n = mkTypedId e2 n2 ↔ (e = e2 ∧ n = n2)) :=
  c7_typed_value_ids regNone 9 ("Door") recDoor.attrs
    [" ;\n\tifc:material inst:ref_9_t1"] 1
    (SelectState.mk 1 ["inst:ref_9_t1 ifc:IfcLabel \"Oak\" .\n"]) (by decide)

theorem psi_size (eid : Nat) (st : SelectState) (it : Value) (f : String) (n : Nat)
    (st2 : SelectState) (h : process_single_item eid st it = some (f, n, st2)) :
    n = nestedLen it := by
  cases it with
  | ref r =>
    rcases Decidable.em (r = 0) with hr | hr
    · simp [process_single_item, hr] at h
    · simp [process_single_item, hr] at h
      simp [← h.2.1, nestedLen]
  | typed ty v =>
    simp [process_single_item] at h
    simp [← h.2.1, nestedLen]
  | emptyDict => simp [process_single_item] at h
  | coll xs =>
    simp [process_single_item] at h
    simp [← h.2.1, nestedLen]
  | str s =>
    simp [process_single_item] at h
    simp [← h.2.1, nestedLen]
  | bool b =>
    simp [process_single_item] at h
    simp [← h.2.1, nestedLen]
  | int m =>
    simp [process_single_item] at h
    simp [← h.2.1, nestedLen]

theorem processItems_spec (eid : Nat) : ∀ (items : List Value) (st : SelectState)
    (fs : List String) (szs : List Nat) (st2 : SelectState),
    processItems eid items st = some (fs, szs, st2) →
    fs.length = items.length ∧ szs.sum = (items.map nestedLen).sum := by
  intro items
  induction items with
  | nil =>
    intro st fs szs st2 h
    simp [processItems] at h
    simp [← h.1, ← h.2.1]
  | cons it rest ih =>
    intro st fs szs st2 h
    rcases h1 : process_single_item eid st it with _ | ⟨⟨f, n, stm⟩⟩
    · simp [processItems, h1] at h
    · rcases h2 : processItems eid rest stm with _ | ⟨⟨fs2, szs2, st3⟩⟩
      · simp [processItems, h1, h2] at h
      · simp [processItems, h1, h2] at h
        obtain ⟨hf, hs, hst⟩ := h
        have hrest := ih stm fs2 szs2 st3 h2
        have hn := psi_size eid st it f n stm h1
        constructor
        · rw [← hf]
          simp [hrest.1]
        · rw [← hs]
          rcases Decidable.em (n = 0) with h0 | h0
          · simp [h0, hrest.2, List.map_cons, ← hn, h0]
          · simp [h0, List.map_cons, ← hn]
            exact hrest.2

/-- C1: triple counts of the collection encoder.  An empty collection
yields exactly one triple rendered as the () marker; a resolved Set of
items yields one triple per item; a resolved List or Array yields
1 + 2 per item + 2 per element of each directly nested collection item
(the empty case also satisfies the List formula, with value 1). -/
theorem c1_collection_counts (eid : Nat) (items : List Value) (ct : Option String)
    (st : SelectState) (out : String) (cnt : Nat) (st2 : SelectState)
    (h : process_collection eid items ct st = some (out, cnt, st2)) :
    (items = [] → out = ("()") ∧ cnt = 1)
    ∧ (ct = some ("SET") → items ≠ [] → cnt = items.length)
    ∧ ((ct = some ("LIST") ∨ ct = some ("ARRAY")) →
        cnt = 1 + 2 * items.length + 2 * (items.map nestedLen).sum) := by
  cases items with
  | nil =>
    simp [process_collection] at h
    exact ⟨fun _ => ⟨h.1.symm, h.2.1.symm⟩, fun _ hne => absurd rfl hne,
      fun _ => by simp [← h.2.1]⟩
  | cons a rest =>
    rcases h1 : processItems eid (a :: rest) st with _ | ⟨⟨fs, szs, stm⟩⟩
    · simp [process_collection, h1] at h
    · have hspec := processItems_spec eid _ _ _ _ _ h1
      simp only [process_collection, h1] at h
      refine ⟨fun hc => by simp at hc, ?_, ?_⟩
      · intro hset _
        rw [hset, if_pos rfl] at h
        simp at h
        rw [← h.2.1, hspec.1]
      · intro hla
        rcases hla with h5 | h5
        · rw [h5, if_neg (by decide), if_pos (by decide)] at h
          simp at h
          rw [← h.2.1, hspec.1, hspec.2]
        · rw [h5, if_neg (by decide), if_pos (by decide)] at h
          simp at h
          rw [← h.2.1, hspec.1, hspec.2]

/-- Witness for C1 at a two-item List with one nested collection. -/
theorem c1_collection_counts_witness :
    (([Value.str ("A"), Value.coll [Value.str ("B")]] : List Value) = [] →
        ("( \"A\" ( \"B\" ) )" : String) = ("()") ∧ (7 : Nat) = 1)
    ∧ ((some ("LIST") : Option String) = some ("SET") →
        ([Value.str ("A"), Value.coll [Value.str ("B")]] : List Value) ≠ [] →
        (7 : Nat) = ([Value.str ("A"), Value.coll [Value.str ("B")]] : List Value).length)
    ∧ (((some ("LIST") : Option String) = some ("LIST") ∨
          (some ("LIST") : Option String) = some ("ARRAY")) →
        (7 : Nat) = 1 + 2 * ([Value.str ("A"), Value.coll [Value.str ("B")]] :
            List Value).length +
          2 * (([Value.str ("A"), Value.coll [Value.str ("B")]] :
            List Value).map nestedLen).sum) :=
  c1_collection_counts 5 [Value.str ("A"), Value.coll [Value.str ("B")]] (some ("LIST"))
    ⟨0, []⟩ ("( \"A\" ( \"B\" ) )") 7 ⟨0, []⟩ (by decide)

theorem pyStartsWith_append (p x : String) : pyStartsWith (p ++ x) p = true := by
  simp only [pyStartsWith, String.data_append, List.isPrefixOf_iff_prefix]
  exact List.prefix_append _ _

theorem psi_startsWith (eid : Nat) (st : SelectState) (it : Value) (f : String) (n : Nat)
    (st2 : SelectState) (h : process_single_item eid st it = some (f, n, st2)) :
    pyStartsWith f ("inst:ref_") = refOrTyped it := by
  cases it with
  | ref r =>
    rcases Decidable.em (r = 0) with hr | hr
    · simp [process_single_item, hr] at h
    · simp [process_single_item, hr] at h
      rw [← h.1]
      simp only [refOrTyped]
      exact pyStartsWith_append ("inst:ref_") (natRepr r)
  | typed ty v =>
    simp [process_single_item] at h
    rw [← h.1]
    simp only [refOrTyped, process_select_value, mkTypedId]
    rw [String.append_assoc, String.append_assoc]
    exact pyStartsWith_append ("inst:ref_") _
  | emptyDict => simp [process_single_item] at h
  | coll xs =>
    simp [process_single_item] at h
    rw [← h.1]
    simp only [refOrTyped]
    cases xs with
    | nil => decide
    | cons a t =>
      simp only [format_collection_items]
      simp only [pyStartsWith, String.data_append]
      rfl
  | str s =>
    simp [process_single_item] at h
    rw [← h.1]
    simp only [refOrTyped, format_literal, pyStartsWith, String.data_append]
    rfl
  | bool b =>
    simp [process_single_item] at h
    rw [← h.1]
    simp only [refOrTyped, format_literal, pyStartsWith, String.data_append]
    rfl
  | int m =>
    simp [process_single_item] at h
    rw [← h.1]
    simp only [refOrTyped, format_literal, pyStartsWith, String.data_append]
    rfl

theorem processItems_all_refs (eid : Nat) : ∀ (items : List Value) (st : SelectState)
    (fs : List String) (szs : List Nat) (st2 : SelectState),
    processItems eid items st = some (fs, szs, st2) →
    fs.all (fun it => pyStartsWith it ("inst:ref_")) = items.all refOrTyped := by
  intro items
  induction items with
  | nil =>
    intro st fs szs st2 h
    simp [processItems] at h
    simp [h.1]
  | cons it rest ih =>
    intro st fs szs st2 h
    rcases h1 : process_single_item eid st it with _ | ⟨⟨f, n, stm⟩⟩
    · simp [processItems, h1] at h
    · rcases h2 : processItems eid rest stm with _ | ⟨⟨fs2, szs2, st3⟩⟩
      · simp [processItems, h1, h2] at h
      · simp [processItems, h1, h2] at h
        rw [← h.1]
        simp only [List.all_cons]
        rw [psi_startsWith eid st it f n stm h1, ih stm fs2 szs2 st3 h2]

/-- C4 (amended): a nonempty collection whose kind the registry leaves
unresolved is rendered as a comma-joined Set exactly when every item is
a Reference or a TypedValue (both format to ids starting with
inst:ref_, so the all-references heuristic also accepts SELECT-typed
items); any literal or nested-collection item forces the parenthesized
List treatment. -/
theorem c4_unknown_kind_amended (eid : Nat) (items : List Value) (st : SelectState)
    (out : String) (cnt : Nat) (st2 : SelectState)
    (h : process_collection eid items none st = some (out, cnt, st2))
    (hne : items ≠ []) :
    ∃ fs szs stm, processItems eid items st = some (fs, szs, stm)
      ∧ ((∀ it ∈ items, refOrTyped it = true) →
            out = String.intercalate (", ") fs ∧ cnt = items.length)
      ∧ ((∃ it ∈ items, refOrTyped it = false) →
            out = "( " ++ String.intercalate (" ") fs ++ " )"
              ∧ cnt = 1 + 2 * items.length + 2 * (items.map nestedLen).sum) := by
  cases items with
  | nil => exact absurd rfl hne
  | cons a rest =>
    rcases h1 : processItems eid (a :: rest) st with _ | ⟨⟨fs, szs, stm⟩⟩
    · simp [process_collection, h1] at h
    · have hspec := processItems_spec eid _ _ _ _ _ h1
      have hall := processItems_all_refs eid _ _ _ _ _ h1
      simp only [process_collection, h1] at h
      rw [if_neg (by decide), if_neg (by decide)] at h
      refine ⟨fs, szs, stm, rfl, ?_, ?_⟩
      · intro hallref
        have htrue : (a :: rest).all refOrTyped = true := by
          rw [List.all_eq_true]
          intro x hx
          exact hallref x hx
        rw [← hall] at htrue
        rw [if_pos htrue] at h
        simp at h
        exact ⟨h.1.symm, by rw [← h.2.1, hspec.1]⟩
      · rintro ⟨it, hit, hfalse⟩
        have hfa : (a :: rest).all refOrTyped = false := by
          rw [List.all_eq_false]
          exact ⟨it, hit, by simp [hfalse]⟩
        rw [← hall] at hfa
        rw [if_neg (by simp [hfa])] at h
        simp at h
        exact ⟨h.1.symm, by rw [← h.2.1, hspec.1, hspec.2]⟩

/-- C4 counterexample: a one-element Unknown-kind collection holding a
TypedValue (not a Reference) is nevertheless given the Set treatment
(comma-joined, one triple), not the List treatment (parenthesized,
three triples) demanded by the claim. -/
theorem c4_unknown_kind_counterexample :
    process_collection 9 [Value.typed ("IfcLabel") (Value.str ("Oak"))] none ⟨0, []⟩ =
      some (("inst:ref_9_t1"), 1, ⟨1, ["inst:ref_9_t1 ifc:IfcLabel \"Oak\" .\n"]⟩)
    ∧ refOrTyped (Value.typed ("IfcLabel") (Value.str ("Oak"))) = true
    ∧ (1 : Nat) ≠ 1 + 2 * 1
    ∧ ("inst:ref_9_t1" : String) ≠ "( inst:ref_9_t1 )" := by
  refine ⟨by decide, rfl, by decide, by decide⟩

/-- Witness for the amended C4 at the TypedValue example item. -/
theorem c4_unknown_kind_amended_witness :
    ∃ fs szs stm,
      processItems 9 [Value.typed ("IfcLabel") (Value.str ("Oak"))] ⟨0, []⟩ =
          some (fs, szs, stm)
        ∧ ((∀ it ∈ [Value.typed ("IfcLabel") (Value.str ("Oak"))], refOrTyped it = true) →
              ("inst:ref_9_t1" : String) = String.intercalate (", ") fs
                ∧ (1 : Nat) = [Value.typed ("IfcLabel") (Value.str ("Oak"))].length)
        ∧ ((∃ it ∈ [Value.typed ("IfcLabel") (Value.str ("Oak"))], refOrTyped it = false) →
              ("inst:ref_9_t1" : String) = "( " ++ String.intercalate (" ") fs ++ " )"
                ∧ (1 : Nat) = 1 + 2 * [Value.typed ("IfcLabel") (Value.str ("Oak"))].length +
                    2 * (([Value.typed ("IfcLabel") (Value.str ("Oak"))].map nestedLen).sum)) :=
  c4_unknown_kind_amended 9 [Value.typed ("IfcLabel") (Value.str ("Oak"))] ⟨0, []⟩
    ("inst:ref_9_t1") 1 ⟨1, ["inst:ref_9_t1 ifc:IfcLabel \"Oak\" .\n"]⟩
    (by decide) (by simp)

theorem strFoldl_append (l : List String) : ∀ s : String,
    l.foldl (· ++ ·) s = s ++ l.foldl (· ++ ·) ("") := by
  induction l with
  | nil => intro s; simp [List.foldl]
  | cons a t ih =>
    intro s
    simp only [List.foldl]
    rw [ih (s ++ a), ih (("") ++ a)]
    have : (("") ++ a : String) = a := rfl
    rw [this, String.append_assoc]

theorem strJoin_cons (x : String) (xs : List String) :
    String.join (x :: xs) = x ++ String.join xs := by
  show (x :: xs).foldl (· ++ ·) ("") = x ++ xs.foldl (· ++ ·) ("")
  simp only [List.foldl]
  rw [strFoldl_append xs (("") ++ x)]
  rfl

theorem strJoin_append (a b : List String) :
    String.join (a ++ b) = String.join a ++ String.join b := by
  induction a with
  | nil =>
    show String.join b = String.join [] ++ String.join b
    rfl
  | cons x xs ih =>
    rw [List.cons_append, strJoin_cons, strJoin_cons, ih, String.append_assoc]

theorem streamLoop_eq (reg : SchemaRegistry) (bs : Nat) : ∀ (recs : List Record)
    (buffer : List String) (out : String) (tc ep : Nat),
    streamLoop reg bs recs buffer out tc ep =
      (runChunks reg recs).map (fun x =>
        (out ++ String.join (buffer ++ x.1), tc + x.2.1, ep + x.2.2)) := by
  intro recs
  induction recs with
  | nil =>
    intro buffer out tc ep
    simp only [streamLoop, runChunks, Option.map_some]
    rcases buffer with _ | ⟨b, bt⟩
    · simp [String.join]
    · simp [String.join]
  | cons r rest ih =>
    intro buffer out tc ep
    rcases r with ⟨rid, rty, rattrs⟩
    cases rid with
    | none =>
      rcases hrc : runChunks reg rest with _ | ⟨⟨cs, c, e⟩⟩
      · simp [streamLoop, runChunks, entityChunks, ih, hrc]
      · simp [streamLoop, runChunks, entityChunks, ih, hrc]
    | some eid =>
      cases rty with
      | none =>
        rcases hrc : runChunks reg rest with _ | ⟨⟨cs, c, e⟩⟩
        · simp [streamLoop, runChunks, entityChunks, ih, hrc]
        · simp [streamLoop, runChunks, entityChunks, ih, hrc]
      | some ety =>
        rcases Decidable.em (eid = 0 ∨ ety = ("")) with hskip | hskip
        · rcases hrc : runChunks reg rest with _ | ⟨⟨cs, c, e⟩⟩
          · simp [streamLoop, runChunks, entityChunks, ih, hrc, hskip, if_pos hskip]
          · simp [streamLoop, runChunks, entityChunks, ih, hrc, hskip, if_pos hskip]
        · rcases hpa : processAttrs reg eid ety rattrs ⟨0, []⟩ with _ | ⟨⟨frags, cnt, st⟩⟩
          · simp [streamLoop, runChunks, entityChunks, hpa, if_neg hskip]
          · rcases hrc : runChunks reg rest with _ | ⟨⟨cs, c, e⟩⟩
            · simp only [streamLoop, runChunks, entityChunks, hpa, if_neg hskip, hrc]
              split
              · rw [ih]
                simp [hrc]
              · rw [ih]
                simp [hrc]
            · simp only [streamLoop, runChunks, entityChunks, hpa, if_neg hskip, hrc]
              split
              · rw [ih]
                simp only [hrc, Option.map_some]
                refine congrArg some (Prod.ext ?_ (Prod.ext ?_ ?_)) <;>
                  simp [strJoin_append, strJoin_cons, String.append_assoc]
                · omega
                · omega
              · rw [ih]
                simp only [hrc, Option.map_some]
                refine congrArg some (Prod.ext ?_ (Prod.ext ?_ ?_)) <;>
                  simp [strJoin_append, strJoin_cons, String.append_assoc]
                · omega
                · omega

/-- C8: for any registry, header timestamp, namespace table and record
stream, running the writer with buffer threshold 1 and with buffer
threshold 100000 gives the same result: identical output text and
identical metrics (buffering only batches writes). -/
theorem c8_buffer_invariance (reg : SchemaRegistry) (now : String)
    (namespaces : List (String × String)) (records : List Record) :
    string_stream_refactored reg now namespaces 1 records =
      string_stream_refactored reg now namespaces 100000 records := by
  unfold string_stream_refactored
  rw [streamLoop_eq, streamLoop_eq]

/-- C2 (amended): a TypedValue attribute contributes exactly one triple
to the owning entity and appends exactly one auxiliary typed-entity
statement; the auxiliary statements are written into the output text,
but the reported triple count excludes them: the metrics equal 2 for
the header plus the per-entity counts collected in runChunks. -/
theorem c2_metrics_amended (reg : SchemaRegistry) (now : String)
    (ns : List (String × String)) (bs : Nat) (records : List Record)
    (out : String) (tc ep : Nat)
    (h : string_stream_refactored reg now ns bs records = some (out, tc, ep)) :
    (∃ cs c e, runChunks reg records = some (cs, c, e)
      ∧ out = write_header now ns ++ String.join cs ∧ tc = 2 + c ∧ ep = e)
    ∧ (∀ (reg2 : SchemaRegistry) (eid : Nat) (ety key ty : String) (v : Value)
        (st : SelectState), ∃ frag st2 aux,
        process_attribute reg2 eid ety key (Value.typed ty v) st = some (frag, 1, st2)
        ∧ st2.typed_triples = st.typed_triples ++ [aux]) := by
  constructor
  · rw [string_stream_refactored, streamLoop_eq] at h
    rcases hrc : runChunks reg records with _ | ⟨⟨cs, c, e⟩⟩
    · rw [hrc] at h; simp at h
    · rw [hrc] at h
      simp only [Option.map_some', Option.some.injEq, Prod.mk.injEq] at h
      obtain ⟨h1, h2, h3⟩ := h
      refine ⟨cs, c, e, rfl, h1.symm, h2.symm, by omega⟩
  · intro reg2 eid ety key ty v st
    refine ⟨" ;\n\t" ++ ifcp ++ key ++ " " ++ mkTypedId eid (st.counter + 1),
      (process_select_value eid st ty v).2,
      mkTypedId eid (st.counter + 1) ++ " " ++ ifcp ++ ty ++ " " ++
        (match v with
          | Value.coll xs => format_collection_items xs
          | w => format_literal w) ++ " .\n", ?_, ?_⟩
    · simp [process_attribute, process_select_value]
    · rfl

/-- C2 counterexample: for the Door record with one TypedValue
attribute, the run writes the header (2 triples), the main block (2
triples) and one auxiliary typed-entity statement, but reports 4
triples: the auxiliary statement written to the output is not included
in the count, so the metric is not header + per-entity + auxiliary. -/
theorem c2_metrics_counterexample :
    string_stream_refactored regNone ("T0") nsEx 100000 [recDoor] =
      some (write_header ("T0") nsEx ++
        "inst:ref_9 a ifc:Door ;\n\tifc:material inst:ref_9_t1 .\n\n" ++
        "inst:ref_9_t1 ifc:IfcLabel \"Oak\" .\n", 4, 1)
    ∧ (4 : Nat) ≠ 2 + 2 + 1 :=
  ⟨by decide, by decide⟩

/-- Witness for the amended C2 at the Door record. -/
theorem c2_metrics_amended_witness :
    (∃ cs c e, runChunks regNone [recDoor] = some (cs, c, e)
      ∧ write_header ("T0") nsEx ++
          "inst:ref_9 a ifc:Door ;\n\tifc:material inst:ref_9_t1 .\n\n" ++
          "inst:ref_9_t1 ifc:IfcLabel \"Oak\" .\n" =
            write_header ("T0") nsEx ++ String.join cs
        ∧ (4 : Nat) = 2 + c ∧ (1 : Nat) = e)
    ∧ (∀ (reg2 : SchemaRegistry) (eid : Nat) (ety key ty : String) (v : Value)
        (st : SelectState), ∃ frag st2 aux,
        process_attribute reg2 eid ety key (Value.typed ty v) st = some (frag, 1, st2)
        ∧ st2.typed_triples = st.typed_triples ++ [aux]) :=
  c2_metrics_amended regNone ("T0") nsEx 100000 [recDoor]
    (write_header ("T0") nsEx ++
      "inst:ref_9 a ifc:Door ;\n\tifc:material inst:ref_9_t1 .\n\n" ++
      "inst:ref_9_t1 ifc:IfcLabel \"Oak\" .\n") 4 1 (by decide)

/-- C3 counterexample: the example record emits exactly the claimed
block, but the writer counts 7 triples for the entity, not 6: the
reported total is 9 = 2 (header) + 7, while the claim predicts
2 + 6 = 8. -/
theorem c3_end_to_end_counterexample :
    string_stream_refactored regC3 ("T0") nsEx 100000 [recC3] =
      some (write_header ("T0") nsEx ++
        "inst:ref_42 a ifc:Wall ;\n\tifc:name inst:ref_7 ;\n\tifc:tags ( \"A\" \"B\" ) .\n\n",
        9, 1)
    ∧ (9 : Nat) ≠ 2 + 6 :=
  ⟨by decide, by decide⟩

/-- C3 (amended): the example record yields exactly the claimed block
and the entity counts 7 triples, 1 for the type assertion, 1 for the
reference attribute and 1 + 2 times 2 for the two-element List. -/
theorem c3_end_to_end_amended :
    string_stream_refactored regC3 ("T0") nsEx 100000 [recC3] =
      some (write_header ("T0") nsEx ++
        "inst:ref_42 a ifc:Wall ;\n\tifc:name inst:ref_7 ;\n\tifc:tags ( \"A\" \"B\" ) .\n\n",
        2 + 7, 1)
    ∧ (7 : Nat) = 1 + 1 + (1 + 2 * 2) :=
  ⟨by decide, by decide⟩

/-- C9 (code-bug evidence): an attribute whose value is a dict of
unrecognized shape (here the empty dict) makes process_attribute fall
off the end of its dict branch and return no result, and the whole run
fails instead of silently omitting the attribute. -/
theorem c9_unrecognized_shape_fails :
    process_attribute regNone 1 ("Wall") ("x") Value.emptyDict ⟨0, []⟩ = none
    ∧ string_stream_refactored regNone ("T0") nsEx 100000 [recBad] = none :=
  ⟨rfl, by decide⟩

/-- C10: a lookup on an instance without a GlobalId attribute yields the
empty triple sequence, and so does a lookup whose GlobalId is absent
from the GUID index; neither is an error. -/
theorem c10_lookup_missing_guid (gp : GeomIndex) (subject : String)
    (ns : List (String × String)) :
    geometry_lookup gp none subject ns = []
    ∧ (∀ g : String, gp.guid_to_uri.lookup g = none →
        geometry_lookup gp (some g) subject ns = []) := by
  refine ⟨rfl, ?_⟩
  intro g hg
  rcases Decidable.em (g = ("")) with he | he
  · simp [geometry_lookup, he]
  · simp [geometry_lookup, he, hg]

/-- Witness for C10 at the example index, with an unknown GUID. -/
theorem c10_lookup_missing_guid_witness :
    geometry_lookup gpEx none ("label") [] = []
    ∧ (∀ g : String, gpEx.guid_to_uri.lookup g = none →
        geometry_lookup gpEx (some g) ("label") [] = []) :=
  c10_lookup_missing_guid gpEx ("label") []

theorem insertSorted_perm (n : Nat) (l : List Nat) : (insertSorted n l).Perm (n :: l) := by
  induction l with
  | nil => exact List.Perm.refl _
  | cons m t ih =>
    simp only [insertSorted]
    split
    · exact List.Perm.refl _
    · exact (ih.cons m).trans (List.Perm.swap n m t)

theorem sortNats_perm (l : List Nat) : (sortNats l).Perm l := by
  induction l with
  | nil => exact List.Perm.refl _
  | cons n t ih => exact (insertSorted_perm n (sortNats t)).trans (ih.cons n)

theorem sortNats_mem (l : List Nat) (a : Nat) : a ∈ sortNats l ↔ a ∈ l :=
  (sortNats_perm l).mem_iff

theorem topoReady_subset (pending : List (Nat × List Nat)) :
    ∀ i ∈ topoReady pending, i ∈ pending.map Prod.fst := by
  intro i hi
  simp only [topoReady, List.mem_map] at hi
  rcases hi with ⟨p, hp, rfl⟩
  exact List.mem_map_of_mem _ (List.mem_of_mem_filter hp)

theorem topoRest_keys (pending : List (Nat × List Nat)) :
    (topoRest pending).map Prod.fst =
      (pending.filter (fun p => ¬ (topoReady pending).contains p.1)).map Prod.fst := by
  simp [topoRest, List.map_map]

theorem topoRest_keys_mem (pending : List (Nat × List Nat)) (i : Nat) :
    i ∈ (topoRest pending).map Prod.fst ↔
      i ∈ pending.map Prod.fst ∧ ¬ (topoReady pending).contains i = true := by
  rw [topoRest_keys]
  constructor
  · intro h
    simp only [List.mem_map] at h
    rcases h with ⟨p, hp, rfl⟩
    have := List.mem_filter.mp hp
    refine ⟨List.mem_map_of_mem _ this.1, ?_⟩
    simpa using this.2
  · rintro ⟨h1, h2⟩
    simp only [List.mem_map] at h1
    rcases h1 with ⟨p, hp, rfl⟩
    exact List.mem_map_of_mem _ (List.mem_filter.mpr ⟨hp, by simpa using h2⟩)

theorem topoIter_mem : ∀ (fuel : Nat) (pending : List (Nat × List Nat)) (ord : List Nat),
    topoIter fuel pending = some ord → ∀ i, (i ∈ ord ↔ i ∈ pending.map Prod.fst) := by
  intro fuel
  induction fuel with
  | zero =>
    intro pending ord h i
    cases pending with
    | nil =>
      simp [topoIter] at h
      simp [← h]
    | cons p t => simp [topoIter] at h
  | succ f ih =>
    intro pending ord h i
    cases pending with
    | nil =>
      simp [topoIter] at h
      simp [← h]
    | cons p t =>
      simp only [topoIter] at h
      by_cases hr : (topoReady (p :: t)).isEmpty
      · rw [if_pos hr] at h; simp at h
      · rw [if_neg hr] at h
        rcases hrec : topoIter f (topoRest (p :: t)) with _ | tl
        · rw [hrec] at h; simp at h
        · rw [hrec] at h
          simp only [Option.some.injEq] at h
          rw [← h]
          simp only [List.mem_append, sortNats_mem]
          constructor
          · rintro (h1 | h1)
            · exact topoReady_subset _ _ h1
            · exact ((topoRest_keys_mem _ _).mp ((ih _ _ hrec i).mp h1)).1
          · intro h1
            by_cases hc : (topoReady (p :: t)).contains i
            · exact Or.inl (by simpa using hc)
            · exact Or.inr ((ih _ _ hrec i).mpr ((topoRest_keys_mem _ _).mpr ⟨h1, hc⟩))

theorem keyUnique : ∀ (l : List (Nat × List Nat)), (l.map Prod.fst).Nodup →
    ∀ p ∈ l, ∀ q ∈ l, p.1 = q.1 → p = q := by
  intro l
  induction l with
  | nil => intro _ p hp; simp at hp
  | cons a t ih =>
    intro hnd p hp q hq heq
    simp only [List.map_cons, List.nodup_cons] at hnd
    rcases List.mem_cons.mp hp with rfl | hp2
    · rcases List.mem_cons.mp hq with rfl | hq2
      · rfl
      · exact absurd (heq ▸ List.mem_map_of_mem Prod.fst hq2) hnd.1
    · rcases List.mem_cons.mp hq with rfl | hq2
      · exact absurd (heq ▸ List.mem_map_of_mem Prod.fst hp2) hnd.1
      · exact ih hnd.2 p hp2 q hq2 heq

theorem topoRest_keys_nodup (pending : List (Nat × List Nat))
    (h : (pending.map Prod.fst).Nodup) : ((topoRest pending).map Prod.fst).Nodup := by
  rw [topoRest_keys]
  exact ((List.filter_sublist pending).map Prod.fst).nodup h

theorem topoIter_nodup : ∀ (fuel : Nat) (pending : List (Nat × List Nat)) (ord : List Nat),
    (pending.map Prod.fst).Nodup → topoIter fuel pending = some ord → ord.Nodup := by
  intro fuel
  induction fuel with
  | zero =>
    intro pending ord hnd h
    cases pending with
    | nil =>
      simp [topoIter] at h
      subst h
      exact List.nodup_nil
    | cons p t => simp [topoIter] at h
  | succ f ih =>
    intro pending ord hnd h
    cases pending with
    | nil =>
      simp [topoIter] at h
      subst h
      exact List.nodup_nil
    | cons p t =>
      simp only [topoIter] at h
      by_cases hr : (topoReady (p :: t)).isEmpty
      · rw [if_pos hr] at h; simp at h
      · rw [if_neg hr] at h
        rcases hrec : topoIter f (topoRest (p :: t)) with _ | tl
        · rw [hrec] at h; simp at h
        · rw [hrec] at h
          simp only [Option.some.injEq] at h
          rw [← h]
          have hready : (topoReady (p :: t)).Nodup :=
            ((List.filter_sublist (p :: t)).map Prod.fst).nodup hnd
          have htl : tl.Nodup := ih _ _ (topoRest_keys_nodup _ hnd) hrec
          rw [List.nodup_append]
          refine ⟨(sortNats_perm _).symm.nodup hready, htl, ?_⟩
          intro a ha hb
          rw [sortNats_mem] at ha
          have hbrest := (topoRest_keys_mem _ _).mp ((topoIter_mem _ _ _ hrec a).mp hb)
          exact hbrest.2 (by simpa [List.elem_iff] using ha)

theorem comesBefore_append_left (pre l : List Nat) (a b : Nat)
    (h : comesBefore l a b) : comesBefore (pre ++ l) a b := by
  rcases h with ⟨l1, l2, l3, rfl⟩
  exact ⟨pre ++ l1, l2, l3, by simp [List.append_assoc]⟩

theorem comesBefore_of_mems (s t : List Nat) (a b : Nat) (ha : a ∈ s) (hb : b ∈ t) :
    comesBefore (s ++ t) a b := by
  rcases List.append_of_mem ha with ⟨s1, s2, rfl⟩
  rcases List.append_of_mem hb with ⟨t1, t2, rfl⟩
  exact ⟨s1, s2 ++ t1, t2, by simp [List.append_assoc]⟩

theorem topoIter_respects : ∀ (fuel : Nat) (pending : List (Nat × List Nat)) (ord : List Nat),
    (pending.map Prod.fst).Nodup →
    (∀ p ∈ pending, ∀ j ∈ p.2, j ∈ pending.map Prod.fst) →
    topoIter fuel pending = some ord →
    ∀ p ∈ pending, ∀ j ∈ p.2, comesBefore ord j p.1 := by
  intro fuel
  induction fuel with
  | zero =>
    intro pending ord hnd hinv h p hp j hj
    cases pending with
    | nil => simp at hp
    | cons q t => simp [topoIter] at h
  | succ f ih =>
    intro pending ord hnd hinv h p hp j hj
    cases pending with
    | nil => simp at hp
    | cons q t =>
      simp only [topoIter] at h
      by_cases hr : (topoReady (q :: t)).isEmpty
      · rw [if_pos hr] at h; simp at h
      · rw [if_neg hr] at h
        rcases hrec : topoIter f (topoRest (q :: t)) with _ | tl
        · rw [hrec] at h; simp at h
        · rw [hrec] at h
          simp only [Option.some.injEq] at h
          subst h
          by_cases hpr : (topoReady (q :: t)).contains p.1
          · have hmem : p.1 ∈ topoReady (q :: t) := by
              simpa [List.elem_iff] using hpr
            simp only [topoReady, List.mem_map] at hmem
            rcases hmem with ⟨w, hw, hw1⟩
            have hwp : w = p := keyUnique _ hnd w (List.mem_of_mem_filter hw) p hp hw1
            have hempty : w.2.isEmpty = true := by
              simpa using (List.mem_filter.mp hw).2
            rw [hwp, List.isEmpty_iff] at hempty
            rw [hempty] at hj
            simp at hj
          · have hprest : (p.1, p.2.filter (fun d => ¬ (topoReady (q :: t)).contains d)) ∈
                topoRest (q :: t) :=
              List.mem_map_of_mem _ (List.mem_filter.mpr ⟨hp, by simpa using hpr⟩)
            by_cases hjr : (topoReady (q :: t)).contains j
            · have hj2 : j ∈ sortNats (topoReady (q :: t)) := by
                rw [sortNats_mem]
                simpa [List.elem_iff] using hjr
              have hp2 : p.1 ∈ tl := by
                apply (topoIter_mem _ _ _ hrec p.1).mpr
                rw [topoRest_keys_mem]
                exact ⟨List.mem_map_of_mem _ hp, by simpa using hpr⟩
              exact comesBefore_of_mems _ _ _ _ hj2 hp2
            · have hnd2 := topoRest_keys_nodup _ hnd
              have hinv2 : ∀ w ∈ topoRest (q :: t), ∀ d ∈ w.2,
                  d ∈ (topoRest (q :: t)).map Prod.fst := by
                intro w hw d hd
                simp only [topoRest, List.mem_map] at hw
                rcases hw with ⟨w0, hw0, rfl⟩
                simp only at hd
                have hd2 := List.mem_filter.mp hd
                rw [topoRest_keys_mem]
                exact ⟨hinv w0 (List.mem_of_mem_filter hw0) d hd2.1, by simpa using hd2.2⟩
              have hres := ih (topoRest (q :: t)) tl hnd2 hinv2 hrec
                (p.1, p.2.filter (fun d => ¬ (topoReady (q :: t)).contains d)) hprest j
                (List.mem_filter.mpr ⟨hj, by simpa using hjr⟩)
              exact comesBefore_append_left _ _ _ _ hres

theorem comesBefore_filter (l : List Nat) (a b : Nat) (p : Nat → Bool)
    (h : comesBefore l a b) (ha : p a = true) (hb : p b = true) :
    comesBefore (l.filter p) a b := by
  rcases h with ⟨l1, l2, l3, rfl⟩
  refine ⟨l1.filter p, l2.filter p, l3.filter p, ?_⟩
  simp [List.filter_append, List.filter_cons, ha, hb]

theorem data2_keys (data : List (Nat × List Nat)) :
    (data.map (fun p => (p.1, p.2.filter (fun d => d ≠ p.1)))).map Prod.fst =
      data.map Prod.fst := by
  rw [List.map_map]
  exact List.map_congr_left (fun a _ => rfl)

theorem prep_keys_eq (data : List (Nat × List Nat)) :
    (toposortPrep data).map Prod.fst = data.map Prod.fst ++ prepExtras data := by
  unfold toposortPrep
  rw [List.map_append, data2_keys, List.map_map]
  congr 1
  rw [show (Prod.fst ∘ fun i => ((i : Nat), ([] : List Nat))) = id from rfl, List.map_id]

theorem prep_keys_nodup (data : List (Nat × List Nat))
    (h : (data.map Prod.fst).Nodup) : ((toposortPrep data).map Prod.fst).Nodup := by
  rw [prep_keys_eq]
  rw [List.nodup_append]
  refine ⟨h, List.nodup_dedup _, ?_⟩
  intro a ha hb
  have h2 := (List.mem_filter.mp (List.mem_dedup.mp hb)).2
  rw [data2_keys] at h2
  have h3 : ¬ ((data.map Prod.fst).contains a = true) := by simpa using h2
  exact h3 (by simpa [List.elem_iff] using ha)

theorem prep_mem_left (data : List (Nat × List Nat)) :
    ∀ i ∈ data.map Prod.fst, i ∈ (toposortPrep data).map Prod.fst := by
  intro i hi
  rw [prep_keys_eq]
  exact List.mem_append_left _ hi

theorem prep_data2_mem (data : List (Nat × List Nat)) :
    ∀ w ∈ data, (w.1, w.2.filter (fun d => d ≠ w.1)) ∈ toposortPrep data := by
  intro w hw
  exact List.mem_append_left _ (List.mem_map_of_mem _ hw)

theorem prep_inv (data : List (Nat × List Nat)) :
    ∀ p ∈ toposortPrep data, ∀ j ∈ p.2, j ∈ (toposortPrep data).map Prod.fst := by
  intro p hp j hj
  rcases List.mem_append.mp hp with hp2 | hp2
  · by_cases hc : (data.map Prod.fst).contains j
    · rw [prep_keys_eq]
      apply List.mem_append_left
      simpa [List.elem_iff] using hc
    · rw [prep_keys_eq]
      apply List.mem_append_right
      unfold prepExtras
      rw [List.mem_dedup]
      apply List.mem_filter.mpr
      constructor
      · exact List.mem_flatten.mpr ⟨p.2, List.mem_map_of_mem _ hp2, hj⟩
      · rw [data2_keys]
        simpa using hc
  · rcases List.mem_map.mp hp2 with ⟨x, hx, rfl⟩
    simp at hj

/-- C5: over the severed file state, an entity of the collected geometry
set is placed on the obsolete list exactly when every entity of the file
referencing it lies inside the geometry set; whenever one obsolete
geometry entity references another, the referenced one appears earlier
in the list (the list follows the topological order); and the two
concrete scenarios of the claim hold: for the chain A=3 to B=2 to C=1
with no outside referencers all three are obsolete in the order C, B, A,
and with an external D=4 referencing B only C and A remain obsolete
while B is retained. -/
theorem c5_geometry_obsolete (m : GeomModel) (geom : List Nat) (obs : List Nat)
    (hnd : geom.Nodup) (h : obsolete_instances m geom = some obs) :
    ((∀ i ∈ geom, (i ∈ obs ↔ ∀ j ∈ get_inverse m i, j ∈ geom))
      ∧ (∀ i ∈ geom, ∀ j ∈ m.refsOf i, j ≠ i → i ∈ obs → j ∈ obs → comesBefore obs j i))
    ∧ obsolete_instances mChain [3, 2, 1] = some [1, 2, 3]
    ∧ obsolete_instances mD [3, 2, 1] = some [1, 3] := by
  refine ⟨?_, by decide, by decide⟩
  unfold obsolete_instances toposort_flatten at h
  rcases hord : topoIter ((toposortPrep (geom.map (fun i => (i, m.refsOf i)))).length + 1)
      (toposortPrep (geom.map (fun i => (i, m.refsOf i)))) with _ | ord
  · rw [hord] at h; simp at h
  · rw [hord] at h
    simp only [Option.map_some', Option.some.injEq] at h
    subst h
    have hkeys : (geom.map (fun i => (i, m.refsOf i))).map Prod.fst = geom := by
      rw [List.map_map]
      rw [show (Prod.fst ∘ fun i => ((i : Nat), m.refsOf i)) = id from rfl, List.map_id]
    have hdnd : ((geom.map (fun i => (i, m.refsOf i))).map Prod.fst).Nodup := by
      rw [hkeys]; exact hnd
    have hprednd := prep_keys_nodup _ hdnd
    have hinv := prep_inv (geom.map (fun i => (i, m.refsOf i)))
    constructor
    · intro i hi
      have hik : i ∈ (toposortPrep (geom.map (fun i => (i, m.refsOf i)))).map Prod.fst :=
        prep_mem_left _ i (by rw [hkeys]; exact hi)
      have hiord : i ∈ ord := (topoIter_mem _ _ _ hord i).mpr hik
      constructor
      · intro hio
        have hall := (List.mem_filter.mp hio).2
        rw [List.all_eq_true] at hall
        intro j hj
        simpa [List.elem_iff] using hall j hj
      · intro hjall
        apply List.mem_filter.mpr
        refine ⟨hiord, ?_⟩
        rw [List.all_eq_true]
        intro j hj
        simpa [List.elem_iff] using hjall j hj
    · intro i hi j hj hne hio hjo
      have hw : (i, m.refsOf i) ∈ geom.map (fun i => (i, m.refsOf i)) :=
        List.mem_map_of_mem _ hi
      have hrow := prep_data2_mem _ (i, m.refsOf i) hw
      have hjrow : j ∈ ((i, m.refsOf i).1, (i, m.refsOf i).2.filter
          (fun d => d ≠ (i, m.refsOf i).1)).2 := by
        simp only
        exact List.mem_filter.mpr ⟨hj, by simpa using hne⟩
      have hcb := topoIter_respects _ _ _ hprednd hinv hord _ hrow j hjrow
      exact comesBefore_filter ord j i _ hcb (List.mem_filter.mp hjo).2 (List.mem_filter.mp hio).2

/-- Witness for C5 at the chain scenario. -/
theorem c5_geometry_obsolete_witness :
    ((∀ i ∈ [3, 2, 1], (i ∈ [1, 2, 3] ↔ ∀ j ∈ get_inverse mChain i, j ∈ [3, 2, 1]))
      ∧ (∀ i ∈ [3, 2, 1], ∀ j ∈ mChain.refsOf i, j ≠ i → i ∈ [1, 2, 3] → j ∈ [1, 2, 3] →
          comesBefore [1, 2, 3] j i))
    ∧ obsolete_instances mChain [3, 2, 1] = some [1, 2, 3]
    ∧ obsolete_instances mD [3, 2, 1] = some [1, 3] :=
  c5_geometry_obsolete mChain [3, 2, 1] [1, 2, 3] (by decide) (by decide)

theorem parseSign_suffix (l : List Char) : (parseSign l).2.IsSuffix l := by
  cases l with
  | nil => exact List.suffix_refl _
  | cons c rest =>
    simp only [parseSign]
    by_cases h1 : c = ('-' : Char)
    · simp only [if_pos h1]
      exact List.suffix_cons _ _
    · by_cases h2 : c = ('+' : Char)
      · simp only [if_neg h1, if_pos h2]
        exact List.suffix_cons _ _
      · simp only [if_neg h1, if_neg h2]
        exact List.suffix_refl _

theorem span_snd_suffix (p : Char → Bool) (l : List Char) : (l.span p).2.IsSuffix l := by
  rw [List.span_eq_take_drop]
  exact List.dropWhile_suffix p

theorem parseFrac_suffix (l : List Char) (fp r : List Char)
    (h : parseFrac l = some (fp, r)) : r.IsSuffix l := by
  cases l with
  | nil => simp [parseFrac] at h
  | cons c l3 =>
    simp only [parseFrac] at h
    by_cases hc : c = ('.' : Char)
    · rw [if_pos hc] at h
      simp only [Option.some.injEq, Prod.mk.injEq, List.span_eq_take_drop] at h
      rw [← h.2]
      exact (List.dropWhile_suffix isDigitC).trans (List.suffix_cons _ _)
    · rw [if_neg hc] at h
      simp at h

theorem parseExp_suffix (l : List Char) : (parseExp l).2.IsSuffix l := by
  cases l with
  | nil => exact List.suffix_refl _
  | cons c rest =>
    simp only [parseExp]
    by_cases hc : c = ('e' : Char) ∨ c = ('E' : Char)
    · rw [if_pos hc]
      cases rest with
      | nil =>
        dsimp only
        split
        · exact List.suffix_refl _
        · exact (span_snd_suffix isDigitC _).trans (List.suffix_cons _ _)
      | cons d r3 =>
        dsimp only
        by_cases h1 : d = ('-' : Char)
        · rw [if_pos h1]
          split
          · exact List.suffix_refl _
          · exact (span_snd_suffix isDigitC _).trans
              ((List.suffix_cons _ _).trans (List.suffix_cons _ _))
        · by_cases h2 : d = ('+' : Char)
          · rw [if_neg h1, if_pos h2]
            split
            · exact List.suffix_refl _
            · exact (span_snd_suffix isDigitC _).trans
                ((List.suffix_cons _ _).trans (List.suffix_cons _ _))
          · rw [if_neg h1, if_neg h2]
            split
            · exact List.suffix_refl _
            · exact (span_snd_suffix isDigitC _).trans (List.suffix_cons _ _)
    · rw [if_neg hc]

theorem matchNum_suffix (l : List Char) (q : Rat) (r : List Char)
    (h : matchNum l = some (q, r)) : r.IsSuffix l := by
  unfold matchNum at h
  dsimp only at h
  split at h
  · simp only [Option.some.injEq, Prod.mk.injEq] at h
    rw [← h.2]
    have h1 : ((parseSign l).2.span isDigitC).2.IsSuffix l :=
      (span_snd_suffix isDigitC _).trans (parseSign_suffix l)
    have h2 : (((parseFrac ((parseSign l).2.span isDigitC).2).map Prod.snd).getD
        ((parseSign l).2.span isDigitC).2).IsSuffix l := by
      rcases hfr : parseFrac ((parseSign l).2.span isDigitC).2 with _ | ⟨fp, rr⟩
      · simpa [hfr] using h1
      · simp only [hfr, Option.map_some', Option.getD_some]
        exact (parseFrac_suffix _ fp rr hfr).trans h1
    exact (parseExp_suffix _).trans h2
  · simp at h

theorem marker_chars : ∀ c ∈ markerStr.data, isReplChar c = false := by decide

theorem marker_ne_nil : markerStr.data ≠ [] := by decide

theorem natRepr_replChar (n : Nat) : ∀ c ∈ (natRepr n).data, isReplChar c = true := by
  intro c hc
  simp [isReplChar, natRepr_isDigit n c hc]

theorem rstrip_subset (c : Char) (l : List Char) : ∀ x ∈ rstripChar c l, x ∈ l := by
  intro x hx
  unfold rstripChar at hx
  rw [List.mem_reverse] at hx
  exact List.mem_reverse.mp ((List.dropWhile_sublist _).subset hx)

theorem roundRepl_chars (q : Rat) : ∀ c ∈ roundRepl q, isReplChar c = true := by
  intro c hc
  unfold roundRepl at hc
  dsimp only at hc
  set ipd := (natRepr ((roundHalfEven (q * 1000000)).natAbs / 1000000)).data with hipd
  set fpd := (natRepr ((roundHalfEven (q * 1000000)).natAbs % 1000000 + 1000000)).data.tail
    with hfpd
  set sgn := (if (roundHalfEven (q * 1000000)) < 0 then [('-' : Char)] else ([] : List Char))
    with hsgn
  have hbase : ∀ x ∈ sgn ++ ipd ++ [('.' : Char)] ++ fpd, isReplChar x = true := by
    intro x hx
    rcases List.mem_append.mp hx with h2 | h2
    · rcases List.mem_append.mp h2 with h3 | h3
      · rcases List.mem_append.mp h3 with h4 | h4
        · rw [hsgn] at h4
          split at h4
          · simp only [List.mem_singleton] at h4
            rw [h4]
            decide
          · simp at h4
        · exact natRepr_replChar _ x h4
      · simp only [List.mem_singleton] at h3
        rw [h3]
        decide
    · exact natRepr_replChar _ x ((List.tail_sublist _).subset h2)
  split at hc
  · simp only [List.mem_singleton] at hc
    rw [hc]
    decide
  · exact hbase c (rstrip_subset _ _ c (rstrip_subset _ _ c hc))

theorem roundRepl_ne_nil (q : Rat) : roundRepl q ≠ [] := by
  unfold roundRepl
  dsimp only
  set ipd := (natRepr ((roundHalfEven (q * 1000000)).natAbs / 1000000)).data with hipd
  set fpd := (natRepr ((roundHalfEven (q * 1000000)).natAbs % 1000000 + 1000000)).data.tail
    with hfpd
  set sgn := (if (roundHalfEven (q * 1000000)) < 0 then [('-' : Char)] else ([] : List Char))
    with hsgn
  split
  · simp
  · next hcond =>
    intro hnil
    exact hcond (Or.inl (by rw [hnil]; rfl))

theorem prefix_append_cases (m xs ys : List Char) (h : m <+: xs ++ ys) :
    m <+: xs ∨ ∃ m2, m = xs ++ m2 ∧ m2 <+: ys := by
  induction xs generalizing m with
  | nil => exact Or.inr ⟨m, rfl, by simpa using h⟩
  | cons a t ih =>
    cases m with
    | nil => exact Or.inl List.nil_prefix
    | cons b m2 =>
      rw [List.cons_append, List.cons_prefix_cons] at h
      rcases ih m2 h.2 with h3 | ⟨m3, hm3, hpre3⟩
      · exact Or.inl (List.cons_prefix_cons.mpr ⟨h.1, h3⟩)
      · refine Or.inr ⟨m3, ?_, hpre3⟩
        rw [h.1, hm3, List.cons_append]

theorem infix_append_cases (m xs ys : List Char) (h : m <:+: xs ++ ys) :
    m <:+: xs ∨ m <:+: ys ∨
      ∃ m1 m2, m = m1 ++ m2 ∧ m1 ≠ [] ∧ m1.IsSuffix xs ∧ m2 <+: ys := by
  induction xs generalizing m with
  | nil => exact Or.inr (Or.inl (by simpa using h))
  | cons a t ih =>
    rw [List.cons_append] at h
    rcases List.infix_cons_iff.mp h with h2 | h2
    · cases m with
      | nil => exact Or.inl List.nil_infix
      | cons b m2 =>
        rw [List.cons_prefix_cons] at h2
        rcases prefix_append_cases m2 t ys h2.2 with h3 | ⟨m3, hm3, hpre3⟩
        · exact Or.inl ((List.cons_prefix_cons.mpr ⟨h2.1, h3⟩).isInfix)
        · cases m3 with
          | nil =>
            apply Or.inl
            rw [h2.1, hm3]
            simp [List.infix_refl]
          | cons c3 t3 =>
            refine Or.inr (Or.inr ⟨a :: t, c3 :: t3, ?_, by simp, List.suffix_refl _, hpre3⟩)
            rw [h2.1, hm3, List.cons_append]
    · rcases ih m h2 with h3 | h3 | ⟨m1, m2, hm, hne, hsuf, hpre⟩
      · exact Or.inl (List.infix_cons h3)
      · exact Or.inr (Or.inl h3)
      · exact Or.inr (Or.inr ⟨m1, m2, hm, hne, hsuf.trans (List.suffix_cons a t), hpre⟩)

theorem numSubGo_prefix : ∀ (fuel : Nat) (s m : List Char),
    (∀ c ∈ m, isReplChar c = false) → m <+: numSubGo fuel s → m <+: s := by
  intro fuel
  induction fuel with
  | zero =>
    intro s m _ h
    simpa [numSubGo] using h
  | succ f ih =>
    intro s m hok h
    cases s with
    | nil => simpa [numSubGo] using h
    | cons c rest =>
      simp only [numSubGo] at h
      rcases hm : matchNum (c :: rest) with _ | ⟨⟨q, r2⟩⟩
      · rw [hm] at h
        dsimp only at h
        cases m with
        | nil => exact List.nil_prefix
        | cons b m2 =>
          rw [List.cons_prefix_cons] at h
          have := ih rest m2 (fun x hx => hok x (List.mem_cons_of_mem _ hx)) h.2
          exact List.cons_prefix_cons.mpr ⟨h.1, this⟩
      · rw [hm] at h
        dsimp only at h
        cases m with
        | nil => exact List.nil_prefix
        | cons b m2 =>
          exfalso
          rcases hrr : roundRepl q with _ | ⟨rc, rt⟩
          · exact roundRepl_ne_nil q hrr
          · rw [hrr, List.cons_append, List.cons_prefix_cons] at h
            have h3 := hok b (by simp)
            rw [h.1] at h3
            have h4 : isReplChar rc = true := roundRepl_chars q rc (by rw [hrr]; simp)
            rw [h3] at h4
            exact Bool.false_ne_true h4

theorem numSubGo_infix : ∀ (fuel : Nat) (s m : List Char), m ≠ [] →
    (∀ c ∈ m, isReplChar c = false) → m <:+: numSubGo fuel s → m <:+: s := by
  intro fuel
  induction fuel with
  | zero =>
    intro s m _ _ h
    simpa [numSubGo] using h
  | succ f ih =>
    intro s m hne hok h
    cases s with
    | nil => simpa [numSubGo] using h
    | cons c rest =>
      simp only [numSubGo] at h
      rcases hm : matchNum (c :: rest) with _ | ⟨⟨q, r2⟩⟩
      · rw [hm] at h
        dsimp only at h
        rcases List.infix_cons_iff.mp h with h2 | h2
        · cases m with
          | nil => exact absurd rfl hne
          | cons b m2 =>
            rw [List.cons_prefix_cons] at h2
            have hp := numSubGo_prefix f rest m2
              (fun x hx => hok x (List.mem_cons_of_mem _ hx)) h2.2
            exact (List.cons_prefix_cons.mpr ⟨h2.1, hp⟩).isInfix
        · exact List.infix_cons (ih rest m hne hok h2)
      · rw [hm] at h
        dsimp only at h
        rcases infix_append_cases m _ _ h with h2 | h2 | ⟨m1, m2, hm12, hne1, hsuf, hpre⟩
        · exfalso
          rcases m with _ | ⟨b, mt⟩
          · exact hne rfl
          · have hrc := roundRepl_chars q b (h2.subset (by simp))
            rw [hok b (by simp)] at hrc
            exact Bool.false_ne_true hrc
        · have h3 := ih r2 m hne hok h2
          exact h3.trans (matchNum_suffix _ _ _ hm).isInfix
        · exfalso
          rcases m1 with _ | ⟨b, m1t⟩
          · exact hne1 rfl
          · have hbm : b ∈ m := by
              rw [hm12]
              simp
            have hrc := roundRepl_chars q b (hsuf.subset (by simp))
            rw [hok b hbm] at hrc
            exact Bool.false_ne_true hrc

theorem hasMarker_round_wkt_lit (o : RNode) (h : hasMarker o = false) :
    hasMarker (round_wkt_lit o) = false := by
  cases o with
  | uri s => simpa [round_wkt_lit] using h
  | bnode s => simpa [round_wkt_lit] using h
  | lit s dt =>
    cases dt with
    | none => simpa [round_wkt_lit] using h
    | some d =>
      by_cases hd : d = wktLitIRI
      · simp only [round_wkt_lit, if_pos hd]
        unfold hasMarker nodeStr at h ⊢
        rw [decide_eq_false_iff_not] at h ⊢
        intro hinf
        apply h
        exact numSubGo_infix s.data.length s.data markerStr.data marker_ne_nil
          marker_chars hinf
      · simpa [round_wkt_lit, hd] using h

theorem bfsGo_structure (g : RGraph) : ∀ (fuel : Nat) (stack visited : List RNode),
    ∃ order : List RNode,
      order.Nodup
      ∧ (∀ v ∈ order, v ∉ visited)
      ∧ (∀ v ∈ order, v ∈ stack ∨ isResource v = true)
      ∧ bfsGo g fuel stack visited = order.flatMap (emitBatch g) := by
  intro fuel
  induction fuel with
  | zero =>
    intro stack visited
    exact ⟨[], by simp, by simp, by simp, by simp [bfsGo]⟩
  | succ f ih =>
    intro stack visited
    cases stack with
    | nil => exact ⟨[], by simp, by simp, by simp, by simp [bfsGo]⟩
    | cons s rest =>
      by_cases hv : visited.contains s
      · obtain ⟨order, h1, h2, h3, h4⟩ := ih rest visited
        refine ⟨order, h1, h2, fun v hv2 => ?_, ?_⟩
        · rcases h3 v hv2 with h5 | h5
          · exact Or.inl (List.mem_cons_of_mem _ h5)
          · exact Or.inr h5
        · simp only [bfsGo, if_pos hv]
          exact h4
      · obtain ⟨order, h1, h2, h3, h4⟩ :=
          ih (((((predicate_objects g s).filter
              (fun po => !(isLabelOrIdent po.1) && !(hasMarker po.2))).filter
              (fun po => isResource po.2)).map Prod.snd).reverse ++ rest) (s :: visited)
        refine ⟨s :: order, ?_, ?_, ?_, ?_⟩
        · rw [List.nodup_cons]
          exact ⟨fun hs => (h2 s hs) (List.mem_cons_self s _), h1⟩
        · intro v hv2
          rcases List.mem_cons.mp hv2 with rfl | hv3
          · intro hvv
            exact hv (by simpa [List.elem_iff] using hvv)
          · intro hvv
            exact (h2 v hv3) (List.mem_cons_of_mem _ hvv)
        · intro v hv2
          rcases List.mem_cons.mp hv2 with rfl | hv3
          · exact Or.inl (List.mem_cons_self _ _)
          · rcases h3 v hv3 with h5 | h5
            · rcases List.mem_append.mp h5 with h6 | h6
              · right
                rw [List.mem_reverse] at h6
                rcases List.mem_map.mp h6 with ⟨po, hpo, rfl⟩
                exact (List.mem_filter.mp hpo).2
              · exact Or.inl (List.mem_cons_of_mem _ h6)
            · exact Or.inr h5
        · simp only [bfsGo, if_neg hv]
          rw [h4, List.flatMap_cons]
          rfl

/-- C6 (amended): the GUID lookup traversal is a stack-driven
depth-first walk (the Python code pops from the end of the list it
names stack), not breadth-first; apart from that the claim holds: the
emitted triples are grouped by a visit order that contains no node
twice, every visited node other than the root is a resource (the walk
never descends into literals), no emitted object node contains the
derived-geometry marker substring, and the lookup renders the triples
by replacing exactly the root subject with the caller-supplied label
while every other node goes through the namespace formatter, which
keeps a full bracketed IRI or a namespace-compacted form. -/
theorem c6_traversal_amended (g : RGraph) (root : RNode) (ns : List (String × String))
    (subject : String) :
    (∃ order : List RNode, order.Nodup
      ∧ (∀ v ∈ order, v = root ∨ isResource v = true)
      ∧ bfs g root = order.flatMap (emitBatch g))
    ∧ (∀ t ∈ bfs g root, hasMarker t.2.2 = false)
    ∧ (∀ gp : GeomIndex, gp.graph = g →
        ∀ guid, gp.guid_to_uri.lookup guid = some [root] → guid ≠ ("") →
        geometry_lookup gp (some guid) subject ns =
          (bfs g root).map (fun t =>
            ((if t.1 = root then subject else fmtNode ns t.1),
             fmtNode ns t.2.1, fmtNode ns t.2.2)))
    ∧ (∀ u : String, u ≠ rdfTypeIRI →
        fmtNode ns (RNode.uri u) = "<" ++ u ++ ">" ∨
          ∃ kn ∈ ns, pyStartsWith u kn.2 = true ∧
            fmtNode ns (RNode.uri u) = kn.1 ++ ":" ++ (u.drop kn.2.length))
    ∧ (∀ b : String, fmtNode ns (RNode.bnode b) = "_:" ++ b) := by
  obtain ⟨order, h1, h2, h3, h4⟩ := bfsGo_structure g (g.triples.length + 1) [root] []
  refine ⟨⟨order, h1, ?_, h4⟩, ?_, ?_, ?_, fun b => rfl⟩
  · intro v hv
    rcases h3 v hv with h5 | h5
    · exact Or.inl (by simpa using h5)
    · exact Or.inr h5
  · intro t ht
    rw [show bfs g root = bfsGo g (g.triples.length + 1) [root] [] from rfl, h4] at ht
    rcases List.mem_flatMap.mp ht with ⟨s, _, htb⟩
    unfold emitBatch at htb
    rcases List.mem_map.mp htb with ⟨po, hpo, rfl⟩
    have hcond := (List.mem_filter.mp hpo).2
    simp only [Bool.and_eq_true, Bool.not_eq_true'] at hcond
    exact hasMarker_round_wkt_lit po.2 hcond.2
  · intro gp hgp guid hguid hne
    simp only [geometry_lookup, if_neg hne, hguid, Option.getD_some, hgp]
    simp [List.flatMap_cons]
  · intro u hu
    rcases hfind : ns.find? (fun kn => pyStartsWith u kn.2) with _ | kn
    · left
      simp [fmtNode, if_neg hu, nsCompact, hfind]
    · refine Or.inr ⟨kn, List.mem_of_find?_eq_some hfind,
        by simpa using List.find?_some hfind, ?_⟩
      simp [fmtNode, if_neg hu, nsCompact, hfind]

/-- Witness for the amended C6 at the example graph. -/
theorem c6_traversal_amended_witness :
    (∃ order : List RNode, order.Nodup
      ∧ (∀ v ∈ order, v = rootEx ∨ isResource v = true)
      ∧ bfs gEx rootEx = order.flatMap (emitBatch gEx))
    ∧ (∀ t ∈ bfs gEx rootEx, hasMarker t.2.2 = false)
    ∧ (∀ gp : GeomIndex, gp.graph = gEx →
        ∀ guid, gp.guid_to_uri.lookup guid = some [rootEx] → guid ≠ ("") →
        geometry_lookup gp (some guid) ("lbl") [] =
          (bfs gEx rootEx).map (fun t =>
            ((if t.1 = rootEx then ("lbl") else fmtNode [] t.1),
             fmtNode [] t.2.1, fmtNode [] t.2.2)))
    ∧ (∀ u : String, u ≠ rdfTypeIRI →
        fmtNode [] (RNode.uri u) = "<" ++ u ++ ">" ∨
          ∃ kn ∈ ([] : List (String × String)), pyStartsWith u kn.2 = true ∧
            fmtNode [] (RNode.uri u) = kn.1 ++ ":" ++ (u.drop kn.2.length))
    ∧ (∀ b : String, fmtNode [] (RNode.bnode b) = "_:" ++ b) :=
  c6_traversal_amended gEx rootEx [] ("lbl")

/-- C6 counterexample: the traversal pops newly discovered nodes from
the end of its list (a stack), so on the example graph it emits the
subtree of B before the subtree of A; a first-in-first-out breadth-first
traversal emits them the other way around, so the traversal is not
breadth-first. -/
theorem c6_traversal_counterexample :
    bfs gEx rootEx ≠
      breadthFirstReference gEx (gEx.triples.length + 1) [rootEx] []
    ∧ bfs gEx rootEx =
      [(nU ("R"), nU ("p1"), nU ("A")), (nU ("R"), nU ("p2"), nU ("B")),
       (nU ("B"), nU ("p4"), nU ("C")), (nU ("A"), nU ("p3"), nU ("D"))]
    ∧ breadthFirstReference gEx (gEx.triples.length + 1) [rootEx] [] =
      [(nU ("R"), nU ("p1"), nU ("A")), (nU ("R"), nU ("p2"), nU ("B")),
       (nU ("A"), nU ("p3"), nU ("D")), (nU ("B"), nU ("p4"), nU ("C"))] :=
  ⟨by decide, by decide, by decide⟩
